import Mathlib

/-!
# A verification development for the rusty-pullauta tile pipeline

This file gives a shallow embedding, in Lean 4, of the parts of the
rusty-pullauta source that the specification's testable properties talk
about, together with proofs (or refutations) of those properties.

Modelling conventions, used throughout:

* `f64` values are modelled as exact rationals (`ℚ`).  All arithmetic the
  embedded code performs on them (comparisons, `+`, `-`, `*`, `/`, `floor`,
  `ceil`, `abs`, `min`, `max`) is exact on the inputs considered, so the
  rational model computes the same values the floating-point code computes
  on small integral/centi-unit data.  NaN-able cells are modelled as
  `Option ℚ`, with `none` playing the role of `f64::NAN`
  (`is_nan ↦ Option.isNone`).
* `usize`/`u64`/`u8` become `Nat`, `i64`/`i32` become `ℤ`; `as usize` casts
  of non-negative floats become `Int.toNat ∘ Int.floor` (both truncate, and
  both collapse negative values to zero, matching Rust's saturating cast).
* in-place mutation of a grid or a map becomes explicit state passing:
  each Rust loop is a `List.foldl` over the same index range, in the same
  order, threading the updated structure.
* hash functions (`DefaultHasher`, `FxHasher`) are modelled as injective
  maps: the cache tag keeps the hashed fields themselves instead of a
  64-bit digest.  This is the standard collision-free abstraction.
-/

/-! ## Shared geometry types (`src/geometry.rs`) -/

/-- A 2D point (`geometry.rs::Point2`). -/
structure Point2 where
  x : ℚ
  y : ℚ
deriving DecidableEq

/-- `geometry.rs::Classification`: the closed enumeration of entity classes. -/
inductive Classification where
  | ContourSimple
  | Contour
  | ContourIndex
  | ContourIntermed
  | ContourIndexIntermed
  | Depression
  | DepressionIndex
  | DepressionIntermed
  | DepressionIndexIntermed
  | Dotknoll
  | Udepression
  | UglyDotknoll
  | UglyUdepression
  | Cliff2
  | Cliff3
  | Cliff4
deriving DecidableEq

/-- `Classification::is_intermed`. -/
def Classification.is_intermed : Classification → Bool
  | .ContourIntermed => true
  | .ContourIndexIntermed => true
  | .DepressionIntermed => true
  | .DepressionIndexIntermed => true
  | _ => false

/-- `geometry.rs::Bounds`. -/
structure Bounds where
  xmin : ℚ
  xmax : ℚ
  ymin : ℚ
  ymax : ℚ
deriving DecidableEq

/-- A `Polylines<P, C>` collection: the two parallel vectors are modelled as
one list of (polyline, classification) pairs, which is exactly what every
iteration in the source zips them into. -/
abbrev Polylines (P C : Type) : Type := List (List P × C)

/-- A 3D point (`geometry.rs::Point3`). -/
structure Point3 where
  x : ℚ
  y : ℚ
  z : ℚ
deriving DecidableEq

/-- `geometry.rs::Points`: points with per-point classification. -/
abbrev PointsGeo : Type := List (Point2 × Classification)

/-- `geometry.rs::Geometry`: tagged union of the three collection kinds. -/
inductive Geometry where
  | Points : PointsGeo → Geometry
  | Polylines2 : Polylines Point2 Classification → Geometry
  | Polylines3 : Polylines Point3 (Classification × ℚ) → Geometry
deriving DecidableEq

/-- The compile-time constant `env!("CARGO_PKG_VERSION")`.  The Cargo
manifest is not part of the sources under inspection; all that matters to
the claims is that it is one fixed string, so it is modelled as one. -/
def cargoPkgVersion : String := "CARGO_PKG_VERSION"

/-- `geometry.rs::BinaryDxf`: the versioned envelope around geometry. -/
structure BinaryDxf where
  version : String
  bounds : Bounds
  data : List Geometry
deriving DecidableEq

/-- `BinaryDxf::new`: stamps the current program version. -/
def BinaryDxf.new (bounds : Bounds) (data : List Geometry) : BinaryDxf :=
  { version := cargoPkgVersion, bounds := bounds, data := data }

/-- `BinaryDxf::from_reader`.  The argument is the outcome of
`util::read_object` on the reader (`none` models a deserialization
failure); `from_reader` then rejects any version other than the current
one with the "created with another version" error. -/
def BinaryDxf.from_reader (decoded : Option BinaryDxf) : Except String BinaryDxf :=
  match decoded with
  | none => .error "could not deserialize object"
  | some object =>
      if object.version = cargoPkgVersion then .ok object
      else .error "Binary DXF file was created with another version, please remove and recreate"

/-! ## The byte-level laser-record codec (`src/io/xyz.rs`, C5)

For the byte-layout claim the three `f64` fields are carried as their raw
64-bit patterns (`Nat` below 2^64), because `f64::to_bytes`/`from_bytes`
(via `io/bytes.rs`) write and read exactly the little-endian bytes of that
bit pattern.  -/

/-- Little-endian byte serialization of a 64-bit value, as `u64::to_le_bytes`
produces it (and as `f64::to_bytes` produces it for the f64 bit pattern). -/
def u64ToLeBytes (bits : Nat) : List Nat :=
  [bits % 256, bits / 256 % 256, bits / 256 ^ 2 % 256, bits / 256 ^ 3 % 256,
    bits / 256 ^ 4 % 256, bits / 256 ^ 5 % 256, bits / 256 ^ 6 % 256, bits / 256 ^ 7 % 256]

/-- Little-endian decoding of 8 bytes back into a 64-bit value. -/
def leBytesToU64 (b0 b1 b2 b3 b4 b5 b6 b7 : Nat) : Nat :=
  b0 + 256 * b1 + 256 ^ 2 * b2 + 256 ^ 3 * b3 + 256 ^ 4 * b4 + 256 ^ 5 * b5 +
    256 ^ 6 * b6 + 256 ^ 7 * b7

/-- `io/xyz.rs::XyzRecord` at the serialization level: the f64 fields `x`,
`y`, `z` are carried as 64-bit patterns, the three metadata fields as
bytes. -/
structure XyzRecordBits where
  x : Nat
  y : Nat
  z : Nat
  classification : Nat
  number_of_returns : Nat
  return_number : Nat
deriving DecidableEq

/-- Field-range invariant of a record as it exists in the Rust program. -/
def XyzRecordBits.wf (r : XyzRecordBits) : Prop :=
  r.x < 2 ^ 64 ∧ r.y < 2 ^ 64 ∧ r.z < 2 ^ 64 ∧
    r.classification < 256 ∧ r.number_of_returns < 256 ∧ r.return_number < 256

instance (r : XyzRecordBits) : Decidable r.wf := by
  unfold XyzRecordBits.wf; infer_instance

/-- `XyzRecord::to_bytes`: x, y and z as little-endian f64 (8 bytes each),
then classification, number_of_returns, return_number as single bytes. -/
def XyzRecordBits.to_bytes (r : XyzRecordBits) : List Nat :=
  u64ToLeBytes r.x ++ u64ToLeBytes r.y ++ u64ToLeBytes r.z ++
    [r.classification, r.number_of_returns, r.return_number]

/-- `XyzRecord::from_bytes`: reads three f64 and then exactly 3 bytes. -/
def XyzRecordBits.from_bytes (bytes : List Nat) : Option XyzRecordBits :=
  match bytes with
  | [x0, x1, x2, x3, x4, x5, x6, x7,
     y0, y1, y2, y3, y4, y5, y6, y7,
     z0, z1, z2, z3, z4, z5, z6, z7,
     classification, nreturns, rnumber] =>
      some { x := leBytesToU64 x0 x1 x2 x3 x4 x5 x6 x7,
             y := leBytesToU64 y0 y1 y2 y3 y4 y5 y6 y7,
             z := leBytesToU64 z0 z1 z2 z3 z4 z5 z6 z7,
             classification := classification,
             number_of_returns := nreturns,
             return_number := rnumber }
  | _ => none

/-! ## Contour-polyline thinning (`src/contours.rs` lines 496-519, C6) -/

/-- The thinning filter applied to one assembled polyline, together with the
scaling to world coordinates, exactly as the `filter_map` in
`heightmap2contours` performs both: point at 0-based index `i` (1-based
position `ii = i + 1`) is dropped when `ii > 5 ∧ ii < ldata - 5 ∧
ldata > 12 ∧ ii % 2 = 0`, where `ldata = len - 1`; kept points are mapped
to `(x * size + xmin, y * size + ymin)`. -/
def thinGo (size xmin ymin : ℚ) (ldata : Nat) : Nat → List (ℚ × ℚ) → List Point2
  | _, [] => []
  | i, (x, y) :: rest =>
      let ii := i + 1
      if ii > 5 ∧ ii < ldata - 5 ∧ ldata > 12 ∧ ii % 2 = 0 then
        thinGo size xmin ymin ldata (i + 1) rest
      else
        { x := x * size + xmin, y := y * size + ymin } :: thinGo size xmin ymin ldata (i + 1) rest

/-- The thinning of one assembled polyline, with `ldata = len - 1` as in the
source. -/
def thinPolyline (size xmin ymin : ℚ) (polyline : List (ℚ × ℚ)) : List Point2 :=
  thinGo size xmin ymin (polyline.length - 1) 0 polyline

/-- The thinning rule in the words of the claim: for a polyline of length
`L > 12`, drop the points whose (1-based) position is even and lies
strictly between `5` and `L - 5`; keep everything else in order.  (Same
world-coordinate scaling applied to kept points.) -/
def thinClaimedGo (size xmin ymin : ℚ) (len : Nat) : Nat → List (ℚ × ℚ) → List Point2
  | _, [] => []
  | i, (x, y) :: rest =>
      let ii := i + 1
      if len > 12 ∧ ii > 5 ∧ ii < len - 5 ∧ ii % 2 = 0 then
        thinClaimedGo size xmin ymin len (i + 1) rest
      else
        { x := x * size + xmin, y := y * size + ymin } ::
          thinClaimedGo size xmin ymin len (i + 1) rest

/-- The claim's thinning rule, with `len` the polyline length. -/
def thinPolylineClaimed (size xmin ymin : ℚ) (polyline : List (ℚ × ℚ)) : List Point2 :=
  thinClaimedGo size xmin ymin polyline.length 0 polyline

/-! ## The grid fence (`src/contours.rs` lines 251-260, C7) -/

/-- One application of the global 0.02 fence in `heightmap2contours`:
`temp = floor(ele / cinterval + 0.5) * cinterval`; if `|ele - temp| < 0.02`
push `ele` to `temp ∓ 0.02` on the side it already lies on. -/
def fenceCell (cinterval ele : ℚ) : ℚ :=
  let temp : ℚ := (⌊ele / cinterval + 1/2⌋ : ℤ) * cinterval
  if |ele - temp| < 1/50 then
    (if ele - temp < 0 then temp - 1/50 else temp + 1/50)
  else ele

/-- The global fence pass over the whole grid (the `iter_mut` loop at the
start of `heightmap2contours`), on a grid given as rows of samples. -/
def fenceGrid (cinterval : ℚ) (grid : List (List ℚ)) : List (List ℚ) :=
  grid.map fun row => row.map (fenceCell cinterval)

/-! ## The computation cache (`src/cache.rs`, C3) -/

/-- The fields fed to the grand `DefaultHasher` when computing the cache
tag, in `needs_recompute_fallible`: program version, dependency
fingerprint, input path, input mtime, and the `FxHasher` digest of the full
input content.  The content digest is modelled collision-freely by the
content bytes themselves, and the grand hash by this record (see the header
note on hash modelling). -/
structure CacheTag where
  version : String
  dependencies_hash : Nat
  input_file : String
  modified : Nat
  file_content_hash : List Nat
deriving DecidableEq

/-- `cache.rs::ComputationGuard`: carries the tag `finalize` will write
(`none` when the guard came from the `NO_CACHE` or error path, in which
case `finalize` writes nothing). -/
structure ComputationGuard where
  new_cache_tag : Option CacheTag
deriving DecidableEq

/-- The state of the world a `needs_recompute` call observes: the current
dependency fingerprint and the input file's path, mtime and content. -/
structure CacheState where
  dependencies_hash : Nat
  input_file : String
  input_mtime : Nat
  input_bytes : List Nat
deriving DecidableEq

/-- The expected tag computed by `needs_recompute_fallible` from the
current state (with the current program version hashed in first). -/
def CacheState.expectedTag (s : CacheState) : CacheTag :=
  { version := cargoPkgVersion,
    dependencies_hash := s.dependencies_hash,
    input_file := s.input_file,
    modified := s.input_mtime,
    file_content_hash := s.input_bytes }

/-- `CachedComputation::needs_recompute`.  `noCache` is whether the
environment variable `NO_CACHE` is set; `stored` is the content of the
cache file next to the product (`none` when the cache file does not
exist).  Returns `none` to skip the computation, `some guard` to run it. -/
def needs_recompute (noCache : Bool) (stored : Option CacheTag) (s : CacheState) :
    Option ComputationGuard :=
  if noCache then
    some { new_cache_tag := none }
  else
    let expected := s.expectedTag
    match stored with
    | none => some { new_cache_tag := some expected }
    | some existing =>
        if existing = expected then none
        else some { new_cache_tag := some expected }

/-- `ComputationGuard::finalize`: the tag the guard writes into the cache
file, `none` when it leaves the cache file untouched. -/
def ComputationGuard.finalize (g : ComputationGuard) : Option CacheTag :=
  g.new_cache_tag

/-! ## Polyline cropping (`src/crop.rs::polylinebindxfcrop`, C2) -/

/-- The loop state of the per-polyline cropping loop in
`polylinebindxfcrop`: the previous point (with its coordinates mirrored in
`prex`/`prey` exactly as the source keeps them), the count of points pushed
into the current output segment, the segment being built, and the finished
segments. -/
structure CropState where
  pre : Option Point2
  prex : ℚ
  prey : ℚ
  pointcount : Nat
  poly : List Point2
  out : List (List Point2)

/-- One iteration of the `for point in p` loop of `polylinebindxfcrop`. -/
def cropStep (minx miny maxx maxy : ℚ) (st : CropState) (point : Point2) : CropState :=
  let valx := point.x
  let valy := point.y
  if valx ≥ minx ∧ valx ≤ maxx ∧ valy ≥ miny ∧ valy ≤ maxy then
    let st1 :=
      match st.pre with
      | some pre =>
          if st.pointcount = 0 ∧ (st.prex < minx ∨ st.prey < miny) then
            { st with poly := st.poly ++ [pre], pointcount := st.pointcount + 1 }
          else st
      | none => st
    { st1 with
        poly := st1.poly ++ [point]
        pointcount := st1.pointcount + 1
        pre := some point
        prex := valx
        prey := valy }
  else
    if st.pointcount > 1 then
      let newPoly := if valx < minx ∨ valy < miny then st.poly ++ [point] else st.poly
      { st with
          out := st.out ++ [newPoly]
          poly := []
          pointcount := 0
          pre := some point
          prex := valx
          prey := valy }
    else
      { st with
          pre := some point
          prex := valx
          prey := valy }

/-- Cropping of one input polyline: run the loop over its points, then keep
the unfinished segment when it has more than one point. -/
def cropPolyline (minx miny maxx maxy : ℚ) (points : List Point2) : List (List Point2) :=
  let finalState := points.foldl (cropStep minx miny maxx maxy)
    { pre := none, prex := 0, prey := 0, pointcount := 0, poly := [], out := [] }
  if finalState.pointcount > 1 then finalState.out ++ [finalState.poly] else finalState.out

/-- `polylinebindxfcrop` on the `Polylines2` payload of the input file:
every input polyline contributes its cropped segments, each carrying the
input polyline's classification, in order. -/
def polylinebindxfcrop (minx miny maxx maxy : ℚ)
    (lines : Polylines Point2 Classification) : Polylines Point2 Classification :=
  lines.flatMap fun pc =>
    (cropPolyline minx miny maxx maxy pc.1).map fun poly => (poly, pc.2)

/-! ## Per-suffix binary DXF merging (`src/merge.rs::bindxfmerge`, C10) -/

/-- Filter applied to contour geometries before they enter the combined
`merged.dxf.bin`: intermediate contours are dropped. -/
def filterIntermed (geo : Geometry) : Geometry :=
  match geo with
  | .Points points => .Points (points.filter fun pc => !pc.2.is_intermed)
  | .Polylines2 lines => .Polylines2 (lines.filter fun lc => !lc.2.is_intermed)
  | .Polylines3 lines => .Polylines3 (lines.filter fun lc => !lc.2.1.is_intermed)

/-- The accumulator threaded through `bindxfmerge`'s suffix loop. -/
structure MergeAcc where
  first_file_bounds : Option Bounds
  all_geometries : List Geometry
  outputs : List BinaryDxf

/-- Processing of the file list of one suffix in `bindxfmerge`: skip empty
lists; otherwise capture `first_file_bounds` from the first file loaded
while none is captured yet, concatenate every file's geometries into the
per-suffix output (whose bounds are `first_file_bounds`), and extend
`all_geometries` (filtering intermediate contours when the suffix is
"contours"). -/
def mergeSuffix (acc : MergeAcc) (group : String × List BinaryDxf) : MergeAcc :=
  let suffix := group.1
  let files := group.2
  match files with
  | [] => acc
  | first :: _ =>
      let ffb := match acc.first_file_bounds with
        | some b => some b
        | none => some first.bounds
      let geometries := files.flatMap fun f => f.data
      let added :=
        if suffix = "contours" then
          files.flatMap fun f => f.data.map filterIntermed
        else
          files.flatMap fun f => f.data
      { first_file_bounds := ffb,
        all_geometries := acc.all_geometries ++ added,
        outputs := acc.outputs ++
          [{ version := cargoPkgVersion,
             bounds := ffb.getD first.bounds,
             data := geometries }] }

/-- `bindxfmerge` on the per-suffix file groups (in the fixed suffix
order): returns every `merged_<suffix>.dxf.bin` produced, followed by the
combined `merged.dxf.bin` (present whenever any file was loaded). -/
def bindxfmerge (groups : List (String × List BinaryDxf)) : List BinaryDxf :=
  let acc := groups.foldl mergeSuffix
    { first_file_bounds := none, all_geometries := [], outputs := [] }
  match acc.first_file_bounds with
  | none => acc.outputs
  | some b =>
      acc.outputs ++
        [{ version := cargoPkgVersion, bounds := b, data := acc.all_geometries }]

/-! ## The XYZ binary record store (`src/io/xyz.rs`, C4 and C8)

The writer/reader pair is modelled at the granularity of the three things
the format stores: the 4-byte magic, the 56-byte header, and the
fixed-size records.  A file is a list of slots, slot 0 standing for byte
offset 0 (the magic), slot 1 for byte offset 4 (the header: `finish`'s
`seek(Start(XYZ_MAGIC.len()))` lands exactly there), and slot `2 + i` for
the i-th record.  Seeking past the end and writing, as `finish` does on a
file that never saw a record, zero-fills the gap: slot `gap` stands for
those bytes.  The f64 fields of a logical record are exact rationals; the
byte-level record codec is the separate `XyzRecordBits` model above. -/

/-- A laser record as the writer and reader handle it
(`io/xyz.rs::XyzRecord`, with the f64 fields as exact rationals). -/
structure XyzRecord where
  x : ℚ
  y : ℚ
  z : ℚ
  classification : Nat
  number_of_returns : Nat
  return_number : Nat
deriving DecidableEq

/-- `io/xyz.rs::Header`.  `f64::INFINITY` / `f64::NEG_INFINITY`, the
initial values of the min/max fields, are the top and bottom elements of
the extended rationals. -/
structure Header where
  n_records : Nat
  min_x : WithTop ℚ
  max_x : WithBot ℚ
  min_y : WithTop ℚ
  max_y : WithBot ℚ
  min_z : WithTop ℚ
  max_z : WithBot ℚ
deriving DecidableEq

/-- `Header::new`: count 0, minima at +∞, maxima at −∞. -/
def Header.new : Header :=
  { n_records := 0, min_x := ⊤, max_x := ⊥, min_y := ⊤, max_y := ⊥, min_z := ⊤, max_z := ⊥ }

/-- `Header::update`: bump the count and fold the record into the bounds. -/
def Header.update (h : Header) (r : XyzRecord) : Header :=
  { n_records := h.n_records + 1
    min_x := min h.min_x (r.x : WithTop ℚ)
    max_x := max h.max_x (r.x : WithBot ℚ)
    min_y := min h.min_y (r.y : WithTop ℚ)
    max_y := max h.max_y (r.y : WithBot ℚ)
    min_z := min h.min_z (r.z : WithTop ℚ)
    max_z := max h.max_z (r.z : WithBot ℚ) }

/-- One slot of the file model (see the section header). -/
inductive FileSlot where
  | magic
  | header (h : Header)
  | record (r : XyzRecord)
  | gap
deriving DecidableEq

/-- Writing at a position: overwrite in place, or zero-fill up to the
position and append, exactly as a seek-past-end followed by a write does. -/
def writeAt (slots : List FileSlot) (idx : Nat) (s : FileSlot) : List FileSlot :=
  if idx < slots.length then slots.set idx s
  else slots ++ List.replicate (idx - slots.length) FileSlot.gap ++ [s]

/-- The underlying `Write + Seek` object.  `failing` models an inner writer
whose I/O operations fail (each such operation returns an error and leaves
the file unchanged); it lets the drop-behaviour claim talk about failures. -/
structure SeekStream where
  slots : List FileSlot
  failing : Bool
deriving DecidableEq

/-- `io/xyz.rs::XyzInternalWriter` (the `start : Option<Instant>` field only
feeds debug logging and is omitted). `inner = none` means the writer was
finished and the stream handed back. -/
structure XyzInternalWriter where
  inner : Option SeekStream
  header : Header
deriving DecidableEq

/-- `XyzInternalWriter::new`. -/
def XyzInternalWriter.new (stream : SeekStream) : XyzInternalWriter :=
  { inner := some stream, header := Header.new }

/-- `XyzInternalWriter::write_record`: error once finished; on the very
first record write the magic and the current (all-extreme) header to
reserve its space; append the record; fold it into the running header. -/
def XyzInternalWriter.write_record (w : XyzInternalWriter) (r : XyzRecord) :
    XyzInternalWriter × Except String Unit :=
  match w.inner with
  | none => (w, .error "writer has already been finished")
  | some stream =>
      if stream.failing then (w, .error "write failed") else
      let stream1 :=
        if w.header.n_records = 0 then
          { stream with slots := stream.slots ++ [FileSlot.magic, FileSlot.header w.header] }
        else stream
      let stream2 := { stream1 with slots := stream1.slots ++ [FileSlot.record r] }
      ({ w with inner := some stream2, header := w.header.update r }, .ok ())

/-- `XyzInternalWriter::finish`: take the stream out (so any further call
errors), seek to just after the magic and overwrite the header there, and
hand the stream back.  When the underlying I/O fails the stream is already
taken, so the writer is left finished and the error propagates. -/
def XyzInternalWriter.finish (w : XyzInternalWriter) :
    XyzInternalWriter × Except String SeekStream :=
  match w.inner with
  | none => (w, .error "writer has already been finished")
  | some stream =>
      if stream.failing then ({ w with inner := none }, .error "seek or write failed")
      else
        ({ w with inner := none },
          .ok { stream with slots := writeAt stream.slots 1 (FileSlot.header w.header) })

/-- What `Drop::drop` amounts to for one writer. -/
inductive DropOutcome where
  /-- `inner` was already taken: drop does nothing. -/
  | nothing
  /-- drop called `finish`, which succeeded with this final stream. -/
  | finished (s : SeekStream)
  /-- drop called `finish`, which failed: `expect` panics (not silent). -/
  | panicked
deriving DecidableEq

/-- `impl Drop for XyzInternalWriter`: finish if not yet finished, and
panic (via `expect`) when that finish fails. -/
def XyzInternalWriter.dropWriter (w : XyzInternalWriter) : DropOutcome :=
  if w.inner.isSome then
    match w.finish.2 with
    | .ok s => .finished s
    | .error _ => .panicked
  else .nothing

/-- Writing a whole sequence of records (each `write_record` of the run
succeeds on a non-failing stream, so the returned unit results are not
consulted). -/
def writeAll (w : XyzInternalWriter) (rs : List XyzRecord) : XyzInternalWriter :=
  rs.foldl (fun w r => (w.write_record r).1) w

/-- The full writer run of the round-trip claim: create a writer on a fresh
(empty, healthy) stream, write all records, finish. -/
def runWriter (rs : List XyzRecord) : Except String SeekStream :=
  (writeAll (XyzInternalWriter.new { slots := [], failing := false }) rs).finish.2

/-- The reader's record loop: `next` parses one record per call until
`n_records` have been read.  Bytes that do not hold a serialized record
(impossible in a well-formed file) read back as a failure. -/
def readRecords (slots : List FileSlot) : Nat → Option (List XyzRecord)
  | 0 => some []
  | n + 1 =>
      match slots with
      | FileSlot.record r :: rest => (readRecords rest n).map fun others => r :: others
      | _ => none

/-- `XyzInternalReader::new` followed by draining `next`: validate the
magic, parse the header, then read exactly `n_records` records. -/
def XyzInternalReader.readAll (slots : List FileSlot) :
    Except String (Header × List XyzRecord) :=
  match slots with
  | FileSlot.magic :: FileSlot.header h :: rest =>
      match readRecords rest h.n_records with
      | some rs => .ok (h, rs)
      | none => .error "failed to read record"
  | FileSlot.magic :: _ => .error "failed to read header"
  | _ => .error "invalid magic number"

/-! ## Heightmap synthesis (`src/contours.rs::xyz2heightmap`, C1)

The `Vec2D` flat grid (its source file sits outside the inspected tree) is
modelled extensionally: a width, a height and the cell contents as a
function — the only operations the pipeline uses are `new` (constant
fill), indexing, assignment, and the dimensions, all captured below.  Grid
cells are `Option ℚ` with `none` for `f64::NAN`.  The in-place interpolation
loops become `List.foldl` over the same index ranges in the same order,
reading the partially-updated grid exactly as the Rust code does.  The
`hmin`/`hmax` accumulation of the first pass is dead code inside
`xyz2heightmap` (nothing reads it) and is omitted. -/

/-- Extensional model of `Vec2D<T>`. -/
structure Vec2Dq (α : Type) where
  width : Nat
  height : Nat
  get : Nat → Nat → α

/-- Assignment `grid[(x, y)] = v`. -/
def Vec2Dq.set {α : Type} (g : Vec2Dq α) (x y : Nat) (v : α) : Vec2Dq α :=
  { g with get := fun a b => if a = x ∧ b = y then v else g.get a b }

/-- `Vec2D::new` (constant fill). -/
def Vec2Dq.new (α : Type) (w h : Nat) (fill : α) : Vec2Dq α :=
  { width := w, height := h, get := fun _ _ => fill }

/-- `f64::MAX`, the initial value of the running minima. -/
def f64Max : ℚ := (2 ^ 53 - 1) * 2 ^ 971

/-- `f64::MIN`, the initial value of the running maxima. -/
def f64Min : ℚ := -f64Max

/-- Rust's `as usize` cast of a (finite) float: truncate toward zero and
saturate at 0; on floats that are ≥ 0 or whose truncation is ≤ 0 this is
`toNat ∘ floor`. -/
def asUsize (q : ℚ) : Nat := (⌊q⌋).toNat

/-- Running minimum of a projection over the points, seeded with `f64::MAX`
(`if xmin > x { xmin = x }`). -/
def foldMinQ (f : XyzRecord → ℚ) (pts : List XyzRecord) : ℚ :=
  pts.foldl (fun m r => if m > f r then f r else m) f64Max

/-- Running maximum of a projection over the points, seeded with `f64::MIN`
(`if xmax < x { xmax = x }`). -/
def foldMaxQ (f : XyzRecord → ℚ) (pts : List XyzRecord) : ℚ :=
  pts.foldl (fun m r => if m < f r then f r else m) f64Min

/-- `xmin` after the snap `xmin = (xmin / 2.0 / scalefactor).floor() * 2.0
* scalefactor`. -/
def hmXmin (pts : List XyzRecord) (s : ℚ) : ℚ :=
  ((⌊foldMinQ (fun r => r.x) pts / 2 / s⌋ : ℤ) : ℚ) * 2 * s

/-- `ymin` after its snap. -/
def hmYmin (pts : List XyzRecord) (s : ℚ) : ℚ :=
  ((⌊foldMinQ (fun r => r.y) pts / 2 / s⌋ : ℤ) : ℚ) * 2 * s

/-- `w = ((xmax - xmin).ceil() / 2.0 / scalefactor) as usize`. -/
def hmW (pts : List XyzRecord) (s : ℚ) : Nat :=
  asUsize (((⌈foldMaxQ (fun r => r.x) pts - hmXmin pts s⌉ : ℤ) : ℚ) / 2 / s)

/-- `h = ((ymax - ymin).ceil() / 2.0 / scalefactor) as usize`. -/
def hmH (pts : List XyzRecord) (s : ℚ) : Nat :=
  asUsize (((⌈foldMaxQ (fun r => r.y) pts - hmYmin pts s⌉ : ℤ) : ℚ) / 2 / s)

/-- The cell column a point lands in:
`idx_x = ((x - xmin).floor() / 2.0 / scalefactor) as usize`. -/
def idxX (pts : List XyzRecord) (s : ℚ) (r : XyzRecord) : Nat :=
  asUsize (((⌊r.x - hmXmin pts s⌋ : ℤ) : ℚ) / 2 / s)

/-- The cell row a point lands in. -/
def idxY (pts : List XyzRecord) (s : ℚ) (r : XyzRecord) : Nat :=
  asUsize (((⌊r.y - hmYmin pts s⌋ : ℤ) : ℚ) / 2 / s)

/-- Whether the second pass accumulates a point: classified ground (2) or
water. -/
def isGroundOrWater (water_class : Nat) (r : XyzRecord) : Prop :=
  r.classification = 2 ∨ r.classification = water_class

instance (wc : Nat) (r : XyzRecord) : Decidable (isGroundOrWater wc r) := by
  unfold isGroundOrWater; infer_instance

/-- The second pass: accumulate `(sum, count)` per cell over the ground and
water points, into the `(w+2)×(h+2)` grid `list_alt`. -/
def accumulateAlt (pts : List XyzRecord) (s : ℚ) (water_class : Nat) : Vec2Dq (ℚ × Nat) :=
  pts.foldl
    (fun g r =>
      if isGroundOrWater water_class r then
        let ix := idxX pts s r
        let iy := idxY pts s r
        let sc := g.get ix iy
        g.set ix iy (sc.1 + r.z, sc.2 + 1)
      else g)
    (Vec2Dq.new (ℚ × Nat) (hmW pts s + 2) (hmH pts s + 2) (0, 0))

/-- The `avg_alt` grid right after the averaging double loop: the loop
writes `sum / count` into every `(x, y)` with `x ≤ w`, `y ≤ h` and
`count > 0`, and leaves NaN elsewhere; this is that grid, stated cell-wise. -/
def buildAvg (acc : Vec2Dq (ℚ × Nat)) (w h : Nat) : Vec2Dq (Option ℚ) :=
  { width := w + 1
    height := h + 1
    get := fun x y =>
      if x < w + 1 ∧ y < h + 1 then
        let sc := acc.get x y
        if sc.2 > 0 then some (sc.1 / (sc.2 : ℚ)) else none
      else none }

/-- `while i1 > 0 && avg_alt[(i1, y)].is_nan() { i1 -= 1 }`. -/
def walkL (g : Vec2Dq (Option ℚ)) (y : Nat) : Nat → Nat
  | 0 => 0
  | i + 1 => if (g.get (i + 1) y).isNone then walkL g y i else i + 1

/-- `while i2 < w && avg_alt[(i2, y)].is_nan() { i2 += 1 }`. -/
def walkR (g : Vec2Dq (Option ℚ)) (y w i : Nat) : Nat :=
  if i < w ∧ (g.get i y).isNone then walkR g y w (i + 1) else i
termination_by w - i
decreasing_by omega

/-- `while j1 > 0 && avg_alt[(x, j1)].is_nan() { j1 -= 1 }`. -/
def walkD (g : Vec2Dq (Option ℚ)) (x : Nat) : Nat → Nat
  | 0 => 0
  | j + 1 => if (g.get x (j + 1)).isNone then walkD g x j else j + 1

/-- `while j2 < h && avg_alt[(x, j2)].is_nan() { j2 += 1 }`. -/
def walkU (g : Vec2Dq (Option ℚ)) (x h j : Nat) : Nat :=
  if j < h ∧ (g.get x j).isNone then walkU g x h (j + 1) else j
termination_by h - j
decreasing_by omega

/-- The body of the cross-scan interpolation loop for one NaN cell. -/
def interpStep (w h : Nat) (g : Vec2Dq (Option ℚ)) (x y : Nat) : Vec2Dq (Option ℚ) :=
  match g.get x y with
  | some _ => g
  | none =>
      let i1 := walkL g y x
      let i2 := walkR g y w x
      let j1 := walkD g x y
      let j2 := walkU g x h y
      let val1 : Option ℚ :=
        match g.get i1 y, g.get i2 y with
        | some a, some b =>
            some ((((i2 - x : Nat) : ℚ) * a + ((x - i1 : Nat) : ℚ) * b) / ((i2 - i1 : Nat) : ℚ))
        | _, _ => none
      let val2 : Option ℚ :=
        match g.get x j1, g.get x j2 with
        | some a, some b =>
            some ((((j2 - y : Nat) : ℚ) * a + ((y - j1 : Nat) : ℚ) * b) / ((j2 - j1 : Nat) : ℚ))
        | _, _ => none
      match val1, val2 with
      | some v1, some v2 => g.set x y (some ((v1 + v2) / 2))
      | some v1, none => g.set x y (some v1)
      | none, some v2 => g.set x y (some v2)
      | none, none => g

/-- The cross-scan fill pass (first interpolation double loop), x outer and
ascending, y inner and ascending, in place. -/
def crossScan (w h : Nat) (g : Vec2Dq (Option ℚ)) : Vec2Dq (Option ℚ) :=
  (List.range (w + 1)).foldl
    (fun g x => (List.range (h + 1)).foldl (fun g y => interpStep w h g x y) g) g

/-- The 3×3 neighbourhood offsets in the loop order of the second round
(`ii` outer from −1 to 1, `jj` inner from −1 to 1). -/
def neighborOffsets : List (ℤ × ℤ) :=
  [(-1, -1), (-1, 0), (-1, 1), (0, -1), (0, 0), (0, 1), (1, -1), (1, 0), (1, 1)]

/-- The body of the 3×3 fill loop for one cell: average the non-NaN cells
of the (bounds-checked) 3×3 neighbourhood, if any. -/
def fill3x3Step (w h : Nat) (g : Vec2Dq (Option ℚ)) (x y : Nat) : Vec2Dq (Option ℚ) :=
  match g.get x y with
  | some _ => g
  | none =>
      let vc := neighborOffsets.foldl
        (fun (acc : ℚ × Nat) off =>
          if (y : ℤ) + off.2 ≥ 0 ∧ (x : ℤ) + off.1 ≥ 0 then
            let xIdx := ((x : ℤ) + off.1).toNat
            let yIdx := ((y : ℤ) + off.2).toNat
            if xIdx ≤ w ∧ yIdx ≤ h then
              match g.get xIdx yIdx with
              | some v => (acc.1 + v, acc.2 + 1)
              | none => acc
            else acc
          else acc)
        ((0 : ℚ), (0 : Nat))
      if vc.2 > 0 then g.set x y (some (vc.1 / (vc.2 : ℚ))) else g

/-- The 3×3 fill pass (second interpolation double loop), x outer and
ascending, y inner and ascending, in place. -/
def fill3x3 (w h : Nat) (g : Vec2Dq (Option ℚ)) : Vec2Dq (Option ℚ) :=
  (List.range (w + 1)).foldl
    (fun g x => (List.range (h + 1)).foldl (fun g y => fill3x3Step w h g x y) g) g

/-- One downward carry: `if avg_alt[(x, y)].is_nan() { avg_alt[(x, y)] =
avg_alt[(x, y - 1)] }` (the copied value may itself be NaN). -/
def carryFrom (g : Vec2Dq (Option ℚ)) (x y ySrc : Nat) : Vec2Dq (Option ℚ) :=
  match g.get x y with
  | some _ => g
  | none => g.set x y (g.get x ySrc)

/-- The final per-column carry pass: for each column, scan downward
(`y = 1..h+1` copying from `y−1`), then upward (`y = h−1..0` copying from
`y+1`). -/
def columnCarry (w h : Nat) (g : Vec2Dq (Option ℚ)) : Vec2Dq (Option ℚ) :=
  (List.range (w + 1)).foldl
    (fun g x =>
      let g1 := (List.range h).foldl (fun g k => carryFrom g x (k + 1) k) g
      (List.range h).foldl (fun g k => carryFrom g x (h - (k + 1)) (h - k)) g1)
    g

/-- The heightmap container (`io/heightmap.rs::HeightMap`), over the
extensional grid. -/
structure HeightMapQ where
  xoffset : ℚ
  yoffset : ℚ
  scale : ℚ
  grid : Vec2Dq (Option ℚ)

/-- `HeightMap::maxx = xoffset + scale * width`. -/
def HeightMapQ.maxx (hm : HeightMapQ) : ℚ :=
  hm.xoffset + hm.scale * (hm.grid.width : ℚ)

/-- `HeightMap::maxy = yoffset + scale * height`. -/
def HeightMapQ.maxy (hm : HeightMapQ) : ℚ :=
  hm.yoffset + hm.scale * (hm.grid.height : ℚ)

/-- `xyz2heightmap`: bounds, snap, accumulate, average, the three fill
passes, the origin shift by +1, and the final no-NaN assertion (`none`
models the panic). -/
def xyz2heightmap (pts : List XyzRecord) (s : ℚ) (water_class : Nat) : Option HeightMapQ :=
  let w := hmW pts s
  let h := hmH pts s
  let g0 := buildAvg (accumulateAlt pts s water_class) w h
  let g1 := crossScan w h g0
  let g2 := fill3x3 w h g1
  let g3 := columnCarry w h g2
  if (List.range g3.width).all (fun x => (List.range g3.height).all fun y => (g3.get x y).isSome)
  then
    some { xoffset := hmXmin pts s + 1, yoffset := hmYmin pts s + 1, scale := 2 * s, grid := g3 }
  else none

/-! ## Spec-side definitions used to state the claims -/

/-- The header accumulated over a write sequence: `Header::new` folded
through `Header::update`. -/
def finalHeader (rs : List XyzRecord) : Header :=
  rs.foldl Header.update Header.new

/-- "The first file loaded during the whole merge": the first file of the
first suffix group that has any files (spec side of C10). -/
def firstLoadedBounds (groups : List (String × List BinaryDxf)) : Option Bounds :=
  groups.findSome? fun group => group.2.head?.map fun f => f.bounds

/-- The thinning rule of the amended claim C6: with `L` the polyline length,
drop exactly the points whose 1-based position `p` is even and satisfies
`5 < p < L - 6`, provided `L ≥ 14`; keep all other points in order (with
the same world-coordinate scaling). -/
def thinAmendedGo (size xmin ymin : ℚ) (len : Nat) : Nat → List (ℚ × ℚ) → List Point2
  | _, [] => []
  | i, (x, y) :: rest =>
      let p := i + 1
      if 14 ≤ len ∧ 5 < p ∧ p < len - 6 ∧ p % 2 = 0 then
        thinAmendedGo size xmin ymin len (i + 1) rest
      else
        { x := x * size + xmin, y := y * size + ymin } ::
          thinAmendedGo size xmin ymin len (i + 1) rest

/-- The amended claim's thinning rule (see `thinAmendedGo`). -/
def thinPolylineAmended (size xmin ymin : ℚ) (polyline : List (ℚ × ℚ)) : List Point2 :=
  thinAmendedGo size xmin ymin polyline.length 0 polyline

/-- The vertex condition of the amended C2: inside the box, or an anchoring
vertex kept at a crossing of the min-x / min-y edges. -/
def cropVertexOk (minx miny maxx maxy : ℚ) (v : Point2) : Prop :=
  (minx ≤ v.x ∧ v.x ≤ maxx ∧ miny ≤ v.y ∧ v.y ≤ maxy) ∨ v.x < minx ∨ v.y < miny

/-- The loop invariant of the cropping loop: every vertex retained so far
satisfies the amended condition, and `prex`/`prey` mirror `pre`. -/
def cropInv (minx miny maxx maxy : ℚ) (st : CropState) : Prop :=
  (∀ v ∈ st.poly, cropVertexOk minx miny maxx maxy v) ∧
  (∀ l ∈ st.out, ∀ v ∈ l, cropVertexOk minx miny maxx maxy v) ∧
  (∀ q, st.pre = some q → st.prex = q.x ∧ st.prey = q.y)

/-- A column of the (option-valued) grid holds at least one non-NaN cell in
rows `0..h`. -/
def colNonEmpty (g : Vec2Dq (Option ℚ)) (h x : Nat) : Prop :=
  ∃ y, y ≤ h ∧ (g.get x y).isSome = true

/-! # Theorems -/

/-! ## Helper lemmas -/

theorem u64_roundtrip (n : Nat) (h : n < 2 ^ 64) :
    leBytesToU64 (n % 256) (n / 256 % 256) (n / 256 ^ 2 % 256) (n / 256 ^ 3 % 256)
      (n / 256 ^ 4 % 256) (n / 256 ^ 5 % 256) (n / 256 ^ 6 % 256) (n / 256 ^ 7 % 256) = n := by
  unfold leBytesToU64
  omega

theorem thinGo_eq_amendedGo (size xmin ymin : ℚ) (len : Nat) (l : List (ℚ × ℚ)) :
    ∀ i, thinGo size xmin ymin (len - 1) i l = thinAmendedGo size xmin ymin len i l := by
  induction l with
  | nil => intro i; rfl
  | cons hd tl ih =>
      intro i
      obtain ⟨x, y⟩ := hd
      simp only [thinGo, thinAmendedGo]
      by_cases h : i + 1 > 5 ∧ i + 1 < (len - 1) - 5 ∧ len - 1 > 12 ∧ (i + 1) % 2 = 0
      · rw [if_pos h, if_pos (by omega : 14 ≤ len ∧ 5 < i + 1 ∧ i + 1 < len - 6 ∧ (i + 1) % 2 = 0)]
        exact ih (i + 1)
      · rw [if_neg h,
          if_neg (by omega : ¬(14 ≤ len ∧ 5 < i + 1 ∧ i + 1 < len - 6 ∧ (i + 1) % 2 = 0))]
        rw [ih (i + 1)]

theorem fenceCell_far (v e : ℚ) (hv : 1/25 ≤ v) (k : ℤ) :
    1/50 ≤ |fenceCell v e - (k : ℚ) * v| := by
  have hv0 : (0 : ℚ) < v := lt_of_lt_of_le (by norm_num) hv
  set t : ℤ := ⌊e / v + 1/2⌋ with ht
  have h1 : (t : ℚ) ≤ e / v + 1/2 := Int.floor_le _
  have h2 : e / v + 1/2 < (t : ℚ) + 1 := Int.lt_floor_add_one _
  have hev : e / v * v = e := div_mul_cancel₀ e hv0.ne'
  have habs : |e - (t : ℚ) * v| ≤ v / 2 := by
    rw [abs_le]
    constructor
    · nlinarith [mul_lt_mul_of_pos_right h2 hv0]
    · nlinarith [mul_le_mul_of_nonneg_right h1 hv0.le]
  have hfar : ∀ k' : ℤ, k' ≠ t → v ≤ |(t : ℚ) * v - (k' : ℚ) * v| := by
    intro k' hne
    have hone : (1 : ℚ) ≤ |(t : ℚ) - (k' : ℚ)| := by
      rw [← Int.cast_sub, ← Int.cast_abs]
      exact_mod_cast Int.one_le_abs (sub_ne_zero.mpr (Ne.symm hne))
    calc v = 1 * v := (one_mul v).symm
    _ ≤ |(t : ℚ) - (k' : ℚ)| * v := mul_le_mul_of_nonneg_right hone hv0.le
    _ = |((t : ℚ) - k') * v| := by rw [abs_mul, abs_of_pos hv0]
    _ = |(t : ℚ) * v - (k' : ℚ) * v| := by ring_nf
  have h50 : |(1/50 : ℚ)| = 1/50 := by norm_num
  unfold fenceCell
  rw [← ht]
  by_cases hclose : |e - (t : ℚ) * v| < 1/50
  · rw [if_pos hclose]
    by_cases hside : e - (t : ℚ) * v < 0
    · rw [if_pos hside]
      by_cases hk : k = t
      · subst hk
        rw [show (t : ℚ) * v - 1/50 - (t : ℚ) * v = -(1/50) by ring, abs_neg, h50]
      · have hA := hfar k hk
        have hB := abs_sub_abs_le_abs_sub ((t : ℚ) * v - (k : ℚ) * v) (1/50)
        rw [show (t : ℚ) * v - 1/50 - (k : ℚ) * v = ((t : ℚ) * v - (k : ℚ) * v) - 1/50 by ring]
        rw [h50] at hB
        linarith
    · rw [if_neg hside]
      by_cases hk : k = t
      · subst hk
        rw [show (t : ℚ) * v + 1/50 - (t : ℚ) * v = 1/50 by ring, h50]
      · have hA := hfar k hk
        have hB := abs_sub_abs_le_abs_sub ((t : ℚ) * v - (k : ℚ) * v) (-(1/50))
        rw [abs_neg, h50] at hB
        rw [show (t : ℚ) * v + 1/50 - (k : ℚ) * v = ((t : ℚ) * v - (k : ℚ) * v) - -(1/50) by ring]
        linarith
  · rw [if_neg hclose]
    by_cases hk : k = t
    · subst hk
      exact le_of_not_lt hclose
    · have hA := hfar k hk
      have habs2 : |(t : ℚ) * v - e| ≤ v / 2 := by rw [abs_sub_comm]; exact habs
      have hB := abs_sub_abs_le_abs_sub ((t : ℚ) * v - (k : ℚ) * v) ((t : ℚ) * v - e)
      rw [show (t : ℚ) * v - (k : ℚ) * v - ((t : ℚ) * v - e) = e - (k : ℚ) * v by ring] at hB
      linarith

/-! ## C5: laser-record byte layout -/

/-- C5, counterexample: the claim says every serialized record occupies
exactly 24 bytes (`z` as f32 plus a pad byte); in the code `z` is an f64,
so the record of all-zero coordinates serializes to 27 bytes, not 24. -/
theorem C5_record_is_not_24_bytes :
    (XyzRecordBits.to_bytes ⟨0, 0, 0, 2, 1, 1⟩).length ≠ 24 := by
  decide

/-- C5 (amended): every serialized laser record occupies exactly 27 bytes,
laid out contiguously and little-endian as x (f64), y (f64), z (f64), then
classification, number_of_returns, return_number (u8 each), with no
padding; `from_bytes` inverts the layout. -/
theorem C5_record_layout (r : XyzRecordBits) (h : r.wf) :
    r.to_bytes.length = 27 ∧ XyzRecordBits.from_bytes r.to_bytes = some r := by
  obtain ⟨hx, hy, hz, hc, hn, hr⟩ := h
  constructor
  · simp [XyzRecordBits.to_bytes, u64ToLeBytes]
  · simp only [XyzRecordBits.to_bytes, u64ToLeBytes, List.cons_append, List.nil_append,
      XyzRecordBits.from_bytes]
    rw [u64_roundtrip r.x hx, u64_roundtrip r.y hy, u64_roundtrip r.z hz]

theorem C5_record_layout_witness :
    XyzRecordBits.wf ⟨3, 5, 7, 2, 1, 1⟩ ∧
      (XyzRecordBits.to_bytes ⟨3, 5, 7, 2, 1, 1⟩).length = 27 :=
  ⟨by decide, (C5_record_layout ⟨3, 5, 7, 2, 1, 1⟩ (by decide)).1⟩

/-! ## C6: thinning rule -/

/-- C6, counterexample: on the 14-point polyline `(0,0) … (13,0)` the code
(which compares positions against `ldata = len - 1`) drops only the point
at 1-based position 6, while the claimed rule (length `L > 12`, even
positions strictly inside `(5, L-5)`) also drops position 8. -/
theorem C6_thinning_cex :
    thinPolyline 1 0 0 ((List.range 14).map fun i => ((i : ℚ), 0)) ≠
      thinPolylineClaimed 1 0 0 ((List.range 14).map fun i => ((i : ℚ), 0)) := by
  norm_num [thinPolyline, thinPolylineClaimed, thinGo, thinClaimedGo, List.range_succ]

/-- C6 (amended): for every assembled polyline of length `L ≥ 14`, exactly
the points whose 1-based position is even and lies strictly between `5`
and `L - 6` are dropped (for `L < 14` nothing is dropped), and all
remaining points are kept in their original order. -/
theorem C6_thinning_amended (size xmin ymin : ℚ) (polyline : List (ℚ × ℚ)) :
    thinPolyline size xmin ymin polyline = thinPolylineAmended size xmin ymin polyline :=
  thinGo_eq_amendedGo size xmin ymin polyline.length polyline 0

/-! ## C7: the global grid fence -/

/-- C7, counterexample: with contour interval `v = 0.02` the fence moves
the grid sample `0` to exactly `0.02 = 1·v`, a contour level, so the
claimed separation fails for small intervals. -/
theorem C7_fence_cex :
    fenceGrid (1/50) [[0]] = [[1/50]] ∧ (1/50 : ℚ) = ((1 : ℤ) : ℚ) * (1/50) := by
  constructor
  · norm_num [fenceGrid, fenceCell, abs_lt]
  · norm_num

/-- C7 (amended): for a contour interval `v ≥ 0.04`, after the global
fence pass every grid sample differs from every multiple `k·v` of the
interval by at least `0.02`; in particular no grid sample equals a contour
level exactly. -/
theorem C7_fence_separation (v : ℚ) (grid : List (List ℚ)) (hv : 1/25 ≤ v)
    (row : List ℚ) (hrow : row ∈ fenceGrid v grid) (e : ℚ) (he : e ∈ row) (k : ℤ) :
    1/50 ≤ |e - (k : ℚ) * v| ∧ e ≠ (k : ℚ) * v := by
  rw [fenceGrid, List.mem_map] at hrow
  obtain ⟨row0, _, hrow0⟩ := hrow
  subst hrow0
  rw [List.mem_map] at he
  obtain ⟨e0, _, he0⟩ := he
  subst he0
  refine ⟨fenceCell_far v e0 hv k, fun hEq => ?_⟩
  have h := fenceCell_far v e0 hv k
  rw [hEq, sub_self, abs_zero] at h
  linarith

theorem C7_fence_separation_witness :
    1/25 ≤ (5 : ℚ) ∧ 1/50 ≤ |(501/50 : ℚ) - ((2 : ℤ) : ℚ) * 5| := by
  have hgrid : fenceGrid 5 [[1001/100]] = [[(501 : ℚ)/50]] := by
    norm_num [fenceGrid, fenceCell, abs_lt]
  refine ⟨by norm_num, ?_⟩
  exact (C7_fence_separation 5 [[1001/100]] (by norm_num) [(501 : ℚ)/50]
    (by rw [hgrid]; exact List.mem_singleton.mpr rfl) ((501 : ℚ)/50)
    (List.mem_singleton.mpr rfl) 2).1

/-- C3, counterexample: touching the input file (mtime 100 → 101) while
leaving the bytes, dependency fingerprint and version unchanged makes
`needs_recompute` return `Some(guard)`, because the mtime is part of the
hashed tag; the claim says it returns `None` whenever bytes, fingerprint
and version are unchanged. -/
theorem C3_cache_cex :
    (⟨7, "in.laz", 101, [1, 2, 3]⟩ : CacheState).input_bytes =
        (⟨7, "in.laz", 100, [1, 2, 3]⟩ : CacheState).input_bytes ∧
      (⟨7, "in.laz", 101, [1, 2, 3]⟩ : CacheState).dependencies_hash =
        (⟨7, "in.laz", 100, [1, 2, 3]⟩ : CacheState).dependencies_hash ∧
      (needs_recompute false (some (CacheState.expectedTag ⟨7, "in.laz", 100, [1, 2, 3]⟩))
          ⟨7, "in.laz", 101, [1, 2, 3]⟩).isSome = true := by
  refine ⟨rfl, rfl, ?_⟩
  decide

/-- C3 (amended): `needs_recompute` returns `None` exactly when all five
hashed components (version, dependency fingerprint, input path, input
mtime, input content) are unchanged; changing the input bytes, the
dependency fingerprint, or the recorded tool version each yields a guard
(so does changing the path or mtime); and with `NO_CACHE` set it always
yields a guard. -/
theorem C3_cache_behaviour :
    (∀ s : CacheState, needs_recompute false (some s.expectedTag) s = none) ∧
    (∀ s s' : CacheState,
        (s'.input_bytes ≠ s.input_bytes ∨ s'.dependencies_hash ≠ s.dependencies_hash ∨
          s'.input_file ≠ s.input_file ∨ s'.input_mtime ≠ s.input_mtime) →
        (needs_recompute false (some s.expectedTag) s').isSome = true) ∧
    (∀ (t : CacheTag) (s : CacheState), t.version ≠ cargoPkgVersion →
        (needs_recompute false (some t) s).isSome = true) ∧
    (∀ (stored : Option CacheTag) (s : CacheState),
        (needs_recompute true stored s).isSome = true) := by
  refine ⟨?_, ?_, ?_, ?_⟩
  · intro s
    simp [needs_recompute]
  · intro s s' h
    have hne : s.expectedTag ≠ s'.expectedTag := by
      intro hEq
      simp only [CacheState.expectedTag, CacheTag.mk.injEq] at hEq
      obtain ⟨-, h1, h2, h3, h4⟩ := hEq
      rcases h with h | h | h | h
      · exact h h4.symm
      · exact h h1.symm
      · exact h h2.symm
      · exact h h3.symm
    simp [needs_recompute, hne]
  · intro t s h
    have hne : t ≠ s.expectedTag := by
      intro hEq
      apply h
      rw [hEq]
      rfl
    simp [needs_recompute, hne]
  · intro stored s
    simp [needs_recompute]

theorem C3_cache_behaviour_witness :
    (needs_recompute false
        (some (CacheState.expectedTag ⟨7, "in.laz", 100, [1, 2, 3]⟩))
        ⟨7, "in.laz", 100, [1, 2, 4]⟩).isSome = true :=
  C3_cache_behaviour.2.1 ⟨7, "in.laz", 100, [1, 2, 3]⟩ ⟨7, "in.laz", 100, [1, 2, 4]⟩
    (Or.inl (by decide))

/-- C9: `BinaryDxf::from_reader` succeeds only when the stored version
string equals the current program version, and every decodable input whose
stored version differs is rejected as stale. -/
theorem C9_version_gate :
    (∀ (decoded : Option BinaryDxf) (object : BinaryDxf),
        BinaryDxf.from_reader decoded = .ok object →
          object.version = cargoPkgVersion ∧ decoded = some object) ∧
    (∀ object : BinaryDxf, object.version ≠ cargoPkgVersion →
        (BinaryDxf.from_reader (some object)).isOk = false) := by
  constructor
  · intro decoded object h
    match decoded with
    | none => simp [BinaryDxf.from_reader] at h
    | some o =>
        rw [BinaryDxf.from_reader] at h
        by_cases hv : o.version = cargoPkgVersion
        · rw [if_pos hv] at h
          cases h
          exact ⟨hv, rfl⟩
        · rw [if_neg hv] at h
          cases h
  · intro object h
    simp only [BinaryDxf.from_reader, if_neg h]
    rfl

theorem C9_version_gate_witness :
    (BinaryDxf.from_reader (some ⟨"0.0.1-old", ⟨0, 0, 0, 0⟩, []⟩)).isOk = false :=
  C9_version_gate.2 ⟨"0.0.1-old", ⟨0, 0, 0, 0⟩, []⟩ (by decide)

theorem foldl_mergeSuffix_some (groups : List (String × List BinaryDxf)) (acc : MergeAcc)
    (b : Bounds) (hffb : acc.first_file_bounds = some b)
    (hout : ∀ o ∈ acc.outputs, o.bounds = b) :
    (groups.foldl mergeSuffix acc).first_file_bounds = some b ∧
      ∀ o ∈ (groups.foldl mergeSuffix acc).outputs, o.bounds = b := by
  induction groups generalizing acc with
  | nil => exact ⟨hffb, hout⟩
  | cons g gs ih =>
      rw [List.foldl_cons]
      apply ih
      · cases hg : g.2 with
        | nil => simp only [mergeSuffix, hg]; exact hffb
        | cons first rest =>
            simp only [mergeSuffix, hg, hffb]
      · cases hg : g.2 with
        | nil => simp only [mergeSuffix, hg]; exact hout
        | cons first rest =>
            simp only [mergeSuffix, hg, hffb]
            intro o ho
            rw [List.mem_append] at ho
            rcases ho with ho | ho
            · exact hout o ho
            · rw [List.mem_singleton] at ho
              subst ho
              rfl

theorem foldl_mergeSuffix_none (groups : List (String × List BinaryDxf)) (acc : MergeAcc)
    (b : Bounds) (hffb : acc.first_file_bounds = none) (hout : acc.outputs = [])
    (hfirst : firstLoadedBounds groups = some b) :
    (groups.foldl mergeSuffix acc).first_file_bounds = some b ∧
      ∀ o ∈ (groups.foldl mergeSuffix acc).outputs, o.bounds = b := by
  induction groups generalizing acc with
  | nil => simp [firstLoadedBounds] at hfirst
  | cons g gs ih =>
      rw [List.foldl_cons]
      cases hg : g.2 with
      | nil =>
          have hskip : mergeSuffix acc g = acc := by simp only [mergeSuffix, hg]
          rw [hskip]
          apply ih acc hffb hout
          rw [firstLoadedBounds, List.findSome?_cons] at hfirst
          rw [hg] at hfirst
          simpa [firstLoadedBounds] using hfirst
      | cons first rest =>
          have hb : b = first.bounds := by
            rw [firstLoadedBounds, List.findSome?_cons, hg] at hfirst
            simp at hfirst
            exact hfirst.symm
          subst hb
          apply foldl_mergeSuffix_some
          · simp only [mergeSuffix, hg, hffb]
          · simp only [mergeSuffix, hg, hffb]
            intro o ho
            rw [hout] at ho
            rw [List.nil_append, List.mem_singleton] at ho
            subst ho
            rfl

/-- C10: every output of `bindxfmerge` — each per-suffix
`merged_<suffix>.dxf.bin` and the combined `merged.dxf.bin` — carries the
bounds of the single first file loaded during the whole merge (not the
union of the bounds of the files merged into that output). -/
theorem C10_merge_bounds (groups : List (String × List BinaryDxf)) (b : Bounds)
    (h : firstLoadedBounds groups = some b) :
    ∀ out ∈ bindxfmerge groups, out.bounds = b := by
  have key := foldl_mergeSuffix_none groups
    { first_file_bounds := none, all_geometries := [], outputs := [] } b rfl rfl h
  intro out hout
  rw [bindxfmerge] at hout
  rw [key.1] at hout
  rw [List.mem_append] at hout
  rcases hout with hout | hout
  · exact key.2 out hout
  · rw [List.mem_singleton] at hout
    subst hout
    rfl

theorem C10_merge_bounds_witness :
    (⟨cargoPkgVersion, ⟨0, 1, 0, 1⟩, []⟩ : BinaryDxf).bounds = ⟨0, 1, 0, 1⟩ := by
  have hfirst : firstLoadedBounds
      [("contours", []), ("detected",
        [⟨cargoPkgVersion, ⟨0, 1, 0, 1⟩, []⟩, ⟨cargoPkgVersion, ⟨5, 6, 7, 8⟩, []⟩])] =
      some ⟨0, 1, 0, 1⟩ := by
    simp [firstLoadedBounds]
  have hmem : (⟨cargoPkgVersion, ⟨0, 1, 0, 1⟩, []⟩ : BinaryDxf) ∈
      bindxfmerge [("contours", []), ("detected",
        [⟨cargoPkgVersion, ⟨0, 1, 0, 1⟩, []⟩, ⟨cargoPkgVersion, ⟨5, 6, 7, 8⟩, []⟩])] := by
    simp [bindxfmerge, mergeSuffix]
  exact C10_merge_bounds _ _ hfirst _ hmem

example :
    polylinebindxfcrop 0 0 10 10
        [([⟨5, 5⟩, ⟨6, 5⟩, ⟨-3, 5⟩], Classification.ContourSimple)] =
      [([⟨5, 5⟩, ⟨6, 5⟩, ⟨-3, 5⟩], Classification.ContourSimple)] := by
  norm_num [polylinebindxfcrop, cropPolyline, cropStep]

theorem cropStep_inv (minx miny maxx maxy : ℚ) (st : CropState) (point : Point2)
    (h : cropInv minx miny maxx maxy st) :
    cropInv minx miny maxx maxy (cropStep minx miny maxx maxy st point) := by
  obtain ⟨hpoly, hout, hsync⟩ := h
  rw [cropStep]
  by_cases hin : point.x ≥ minx ∧ point.x ≤ maxx ∧ point.y ≥ miny ∧ point.y ≤ maxy
  · rw [if_pos hin]
    cases hpre : st.pre with
    | none =>
        refine ⟨?_, hout, ?_⟩
        · intro v hv
          rw [List.mem_append, List.mem_singleton] at hv
          rcases hv with hv | hv
          · exact hpoly v hv
          · subst hv; exact Or.inl ⟨hin.1, hin.2.1, hin.2.2.1, hin.2.2.2⟩
        · intro q hq
          cases hq
          exact ⟨rfl, rfl⟩
    | some pre =>
        dsimp only
        by_cases hanchor : st.pointcount = 0 ∧ (st.prex < minx ∨ st.prey < miny)
        · rw [if_pos hanchor]
          refine ⟨?_, hout, ?_⟩
          · intro v hv
            rw [List.mem_append, List.mem_singleton] at hv
            rcases hv with hv | hv
            · rw [List.mem_append, List.mem_singleton] at hv
              rcases hv with hv | hv
              · exact hpoly v hv
              · obtain ⟨hx, hy⟩ := hsync pre hpre
                subst hv
                right
                rcases hanchor.2 with hside | hside
                · exact Or.inl (hx ▸ hside)
                · exact Or.inr (hy ▸ hside)
            · subst hv; exact Or.inl ⟨hin.1, hin.2.1, hin.2.2.1, hin.2.2.2⟩
          · intro q hq
            cases hq
            exact ⟨rfl, rfl⟩
        · rw [if_neg hanchor]
          refine ⟨?_, hout, ?_⟩
          · intro v hv
            rw [List.mem_append, List.mem_singleton] at hv
            rcases hv with hv | hv
            · exact hpoly v hv
            · subst hv; exact Or.inl ⟨hin.1, hin.2.1, hin.2.2.1, hin.2.2.2⟩
          · intro q hq
            cases hq
            exact ⟨rfl, rfl⟩
  · rw [if_neg hin]
    by_cases hcount : st.pointcount > 1
    · rw [if_pos hcount]
      refine ⟨?_, ?_, ?_⟩
      · intro v hv
        simp at hv
      · intro l hl
        rw [List.mem_append, List.mem_singleton] at hl
        rcases hl with hl | hl
        · exact hout l hl
        · subst hl
          by_cases hside : point.x < minx ∨ point.y < miny
          · rw [if_pos hside]
            intro v hv
            rw [List.mem_append, List.mem_singleton] at hv
            rcases hv with hv | hv
            · exact hpoly v hv
            · subst hv; exact Or.inr hside
          · rw [if_neg hside]
            exact hpoly
      · intro q hq
        cases hq
        exact ⟨rfl, rfl⟩
    · rw [if_neg hcount]
      refine ⟨hpoly, hout, ?_⟩
      intro q hq
      cases hq
      exact ⟨rfl, rfl⟩

theorem foldl_cropStep_inv (minx miny maxx maxy : ℚ) (points : List Point2) (st : CropState)
    (h : cropInv minx miny maxx maxy st) :
    cropInv minx miny maxx maxy (points.foldl (cropStep minx miny maxx maxy) st) := by
  induction points generalizing st with
  | nil => exact h
  | cons p ps ih =>
      rw [List.foldl_cons]
      exact ih _ (cropStep_inv minx miny maxx maxy st p h)

theorem cropPolyline_ok (minx miny maxx maxy : ℚ) (points : List Point2) :
    ∀ poly ∈ cropPolyline minx miny maxx maxy points, ∀ v ∈ poly,
      cropVertexOk minx miny maxx maxy v := by
  have hinv := foldl_cropStep_inv minx miny maxx maxy points
    { pre := none, prex := 0, prey := 0, pointcount := 0, poly := [], out := [] }
    (by refine ⟨?_, ?_, ?_⟩ <;> intro v hv <;> simp at hv)
  intro poly hpoly v hv
  rw [cropPolyline] at hpoly
  by_cases hcount :
      (points.foldl (cropStep minx miny maxx maxy)
        { pre := none, prex := 0, prey := 0, pointcount := 0, poly := [], out := [] }).pointcount
        > 1
  · rw [if_pos hcount, List.mem_append, List.mem_singleton] at hpoly
    rcases hpoly with hpoly | hpoly
    · exact hinv.2.1 poly hpoly v hv
    · subst hpoly
      exact hinv.1 v hv
  · rw [if_neg hcount] at hpoly
    exact hinv.2.1 poly hpoly v hv

/-- C2 (amended): after `polylinebindxfcrop`, every vertex of the output
either satisfies `minx ≤ x ≤ maxx ∧ miny ≤ y ≤ maxy`, or is an anchoring
vertex retained at a crossing of the min-x / min-y boundary edges, which
instead satisfies `x < minx ∨ y < miny`. -/
theorem C2_crop_containment (minx miny maxx maxy : ℚ)
    (lines : Polylines Point2 Classification) (pl : List Point2 × Classification)
    (hpl : pl ∈ polylinebindxfcrop minx miny maxx maxy lines) (v : Point2) (hv : v ∈ pl.1) :
    (minx ≤ v.x ∧ v.x ≤ maxx ∧ miny ≤ v.y ∧ v.y ≤ maxy) ∨ v.x < minx ∨ v.y < miny := by
  rw [polylinebindxfcrop, List.mem_flatMap] at hpl
  obtain ⟨line, _, hmem⟩ := hpl
  rw [List.mem_map] at hmem
  obtain ⟨poly, hpoly, hpl⟩ := hmem
  subst hpl
  exact cropPolyline_ok minx miny maxx maxy line.1 poly hpoly v hv

/-- C2, counterexample: a polyline that leaves the box `[0,10]²` across the
min-x edge keeps the outside exit vertex `(-3, 5)` in the output, whose
x-coordinate violates `minx ≤ x`; so not every output vertex lies in the
box. -/
theorem C2_crop_cex :
    polylinebindxfcrop 0 0 10 10
        [([⟨5, 5⟩, ⟨6, 5⟩, ⟨-3, 5⟩], Classification.ContourSimple)] =
      [([⟨5, 5⟩, ⟨6, 5⟩, ⟨-3, 5⟩], Classification.ContourSimple)] ∧
      ¬((0 : ℚ) ≤ (-3 : ℚ)) := by
  constructor
  · norm_num [polylinebindxfcrop, cropPolyline, cropStep]
  · norm_num

theorem C2_crop_containment_witness :
    ((0 : ℚ) ≤ (5 : ℚ) ∧ (5 : ℚ) ≤ 10 ∧ (0 : ℚ) ≤ (5 : ℚ) ∧ (5 : ℚ) ≤ 10) ∨
      (5 : ℚ) < 0 ∨ (5 : ℚ) < 0 := by
  have hmem : ([⟨5, 5⟩, ⟨6, 5⟩, ⟨(-3), 5⟩], Classification.ContourSimple) ∈
      polylinebindxfcrop 0 0 10 10
        [([⟨5, 5⟩, ⟨6, 5⟩, ⟨(-3), 5⟩], Classification.ContourSimple)] := by
    norm_num [polylinebindxfcrop, cropPolyline, cropStep]
  exact C2_crop_containment 0 0 10 10
    [([⟨5, 5⟩, ⟨6, 5⟩, ⟨(-3), 5⟩], Classification.ContourSimple)]
    ([⟨5, 5⟩, ⟨6, 5⟩, ⟨(-3), 5⟩], Classification.ContourSimple) hmem ⟨5, 5⟩
    (by norm_num)

theorem writeAll_go (rs : List XyzRecord) :
    ∀ (w : XyzInternalWriter) (slots : List FileSlot),
      w.inner = some ⟨slots, false⟩ → w.header.n_records ≠ 0 →
      writeAll w rs =
        { inner := some ⟨slots ++ rs.map FileSlot.record, false⟩,
          header := rs.foldl Header.update w.header } := by
  induction rs with
  | nil =>
      intro w slots hinner _
      cases w with
      | mk inner header =>
          simp only [writeAll, List.foldl_nil, List.map_nil, List.append_nil]
          simp only at hinner
          rw [hinner]
  | cons r rs ih =>
      intro w slots hinner hn
      have hstep : (w.write_record r).1 =
          { inner := some ⟨slots ++ [FileSlot.record r], false⟩,
            header := w.header.update r } := by
        rw [XyzInternalWriter.write_record, hinner]
        simp only [if_neg hn]
        rfl
      rw [writeAll, List.foldl_cons]
      have := ih (w.write_record r).1 (slots ++ [FileSlot.record r]) (by rw [hstep]) (by
        rw [hstep]
        simp only [Header.update]
        omega)
      rw [writeAll] at this
      rw [this, hstep]
      simp only [List.map_cons, List.append_assoc, List.singleton_append, List.foldl_cons]

theorem runWriter_cons (r : XyzRecord) (rs : List XyzRecord) :
    runWriter (r :: rs) =
      .ok ⟨FileSlot.magic :: FileSlot.header (finalHeader (r :: rs)) ::
            (r :: rs).map FileSlot.record, false⟩ := by
  rw [runWriter]
  have hfirst : ((XyzInternalWriter.new { slots := [], failing := false }).write_record r).1 =
      { inner := some ⟨[FileSlot.magic, FileSlot.header Header.new, FileSlot.record r], false⟩,
        header := Header.new.update r } := by
    rfl
  rw [writeAll, List.foldl_cons]
  have hrest := writeAll_go rs ((XyzInternalWriter.new { slots := [], failing := false }).write_record r).1
    [FileSlot.magic, FileSlot.header Header.new, FileSlot.record r]
    (by rw [hfirst]) (by rw [hfirst]; simp [Header.update, Header.new])
  rw [writeAll] at hrest
  rw [hrest, hfirst]
  rw [XyzInternalWriter.finish]
  simp only [if_neg (by simp : ¬(false = true))]
  simp only [writeAt, List.length_append, List.length_cons, List.length_map]
  rw [if_pos (by omega)]
  simp [finalHeader, List.set]

theorem foldl_update_n_records (rs : List XyzRecord) :
    ∀ h : Header, (rs.foldl Header.update h).n_records = h.n_records + rs.length := by
  induction rs with
  | nil => intro h; simp
  | cons r rs ih =>
      intro h
      rw [List.foldl_cons, ih]
      simp only [Header.update, List.length_cons]
      omega

theorem foldl_update_min (f : XyzRecord → ℚ) (sel : Header → WithTop ℚ)
    (hsel : ∀ (h : Header) (r : XyzRecord), sel (h.update r) = min (sel h) ((f r : ℚ) : WithTop ℚ))
    (rs : List XyzRecord) :
    ∀ h : Header, sel (rs.foldl Header.update h) = min (sel h) ((rs.map f).minimum) := by
  induction rs with
  | nil =>
      intro h
      simp [List.minimum_nil]
  | cons r rs ih =>
      intro h
      rw [List.foldl_cons, ih, hsel, List.map_cons, List.minimum_cons, min_assoc]

theorem foldl_update_max (f : XyzRecord → ℚ) (sel : Header → WithBot ℚ)
    (hsel : ∀ (h : Header) (r : XyzRecord), sel (h.update r) = max (sel h) ((f r : ℚ) : WithBot ℚ))
    (rs : List XyzRecord) :
    ∀ h : Header, sel (rs.foldl Header.update h) = max (sel h) ((rs.map f).maximum) := by
  induction rs with
  | nil =>
      intro h
      simp [List.maximum_nil]
  | cons r rs ih =>
      intro h
      rw [List.foldl_cons, ih, hsel, List.map_cons, List.maximum_cons, max_assoc]

theorem readRecords_map (rs : List XyzRecord) :
    readRecords (rs.map FileSlot.record) rs.length = some rs := by
  induction rs with
  | nil => rfl
  | cons r rs ih =>
      simp [List.map_cons, List.length_cons, readRecords, ih]

/-- C4 (amended): for every nonempty sequence of records `rs`, writing
`rs`, finishing, and reading the file back yields exactly `rs` in order;
the finalized header carries `n_records = rs.length` and the
coordinate-wise minima and maxima of the written records. -/
theorem C4_roundtrip (rs : List XyzRecord) (hne : rs ≠ []) :
    runWriter rs =
        .ok ⟨FileSlot.magic :: FileSlot.header (finalHeader rs) :: rs.map FileSlot.record,
          false⟩ ∧
      XyzInternalReader.readAll
          (FileSlot.magic :: FileSlot.header (finalHeader rs) :: rs.map FileSlot.record) =
        .ok (finalHeader rs, rs) ∧
      (finalHeader rs).n_records = rs.length ∧
      (finalHeader rs).min_x = (rs.map XyzRecord.x).minimum ∧
      (finalHeader rs).max_x = (rs.map XyzRecord.x).maximum ∧
      (finalHeader rs).min_y = (rs.map XyzRecord.y).minimum ∧
      (finalHeader rs).max_y = (rs.map XyzRecord.y).maximum ∧
      (finalHeader rs).min_z = (rs.map XyzRecord.z).minimum ∧
      (finalHeader rs).max_z = (rs.map XyzRecord.z).maximum := by
  match rs, hne with
  | r :: rs, _ =>
    refine ⟨runWriter_cons r rs, ?_, ?_, ?_, ?_, ?_, ?_, ?_, ?_⟩
    · rw [XyzInternalReader.readAll]
      have hn : (finalHeader (r :: rs)).n_records = (r :: rs).length := by
        rw [finalHeader, foldl_update_n_records]
        simp [Header.new]
      rw [hn, readRecords_map]
    · rw [finalHeader, foldl_update_n_records]
      simp [Header.new]
    · rw [finalHeader, foldl_update_min XyzRecord.x (fun h => h.min_x) (fun h r => rfl)]
      simp [Header.new]
    · rw [finalHeader, foldl_update_max XyzRecord.x (fun h => h.max_x) (fun h r => rfl)]
      simp [Header.new]
    · rw [finalHeader, foldl_update_min XyzRecord.y (fun h => h.min_y) (fun h r => rfl)]
      simp [Header.new]
    · rw [finalHeader, foldl_update_max XyzRecord.y (fun h => h.max_y) (fun h r => rfl)]
      simp [Header.new]
    · rw [finalHeader, foldl_update_min XyzRecord.z (fun h => h.min_z) (fun h r => rfl)]
      simp [Header.new]
    · rw [finalHeader, foldl_update_max XyzRecord.z (fun h => h.max_z) (fun h r => rfl)]
      simp [Header.new]

/-- C4, counterexample: for the empty sequence the writer never writes the
magic (it is only written on the first record), yet `finish` still seeks
past it and writes the header, leaving a file of zero-fill bytes plus a
header; reading that file back fails on the magic check instead of
yielding the empty sequence. -/
theorem C4_empty_cex :
    runWriter [] = .ok ⟨[FileSlot.gap, FileSlot.header Header.new], false⟩ ∧
      XyzInternalReader.readAll [FileSlot.gap, FileSlot.header Header.new] =
        .error "invalid magic number" := by
  constructor
  · rfl
  · rfl

theorem C4_roundtrip_witness :
    ([(⟨1, 2, 3, 4, 5, 6⟩ : XyzRecord)] : List XyzRecord) ≠ [] ∧
      (finalHeader [⟨1, 2, 3, 4, 5, 6⟩]).n_records = 1 :=
  ⟨by simp, (C4_roundtrip [⟨1, 2, 3, 4, 5, 6⟩] (by simp)).2.2.1⟩

/-- C8: `finish` is idempotent — once it has succeeded, a further `finish`
returns an error and changes nothing, and a drop after it does nothing;
when `finish` was not called, drop invokes it (same effect on the file);
and when the finish performed by drop fails, drop panics via `expect`
rather than staying silent. -/
theorem C8_finish_idempotent_drop :
    (∀ (w w1 : XyzInternalWriter) (s : SeekStream), w.finish = (w1, .ok s) →
        w1.finish = (w1, .error "writer has already been finished") ∧
          w1.dropWriter = .nothing) ∧
    (∀ (w : XyzInternalWriter) (stream : SeekStream),
        w.inner = some stream → stream.failing = false →
        w.dropWriter =
          .finished { stream with slots := writeAt stream.slots 1 (FileSlot.header w.header) } ∧
          w.finish.2 =
            .ok { stream with slots := writeAt stream.slots 1 (FileSlot.header w.header) }) ∧
    (∀ (w : XyzInternalWriter) (stream : SeekStream),
        w.inner = some stream → stream.failing = true →
        w.dropWriter = .panicked) := by
  refine ⟨?_, ?_, ?_⟩
  · intro w w1 s h
    cases hw : w.inner with
    | none =>
        rw [XyzInternalWriter.finish, hw] at h
        dsimp only at h
        cases h
    | some stream =>
        rw [XyzInternalWriter.finish, hw] at h
        dsimp only at h
        by_cases hf : stream.failing = true
        · rw [if_pos hf] at h
          cases h
        · rw [if_neg hf] at h
          have hw1 : w1 = { w with inner := none } := (congrArg Prod.fst h).symm
          constructor
          · rw [XyzInternalWriter.finish, hw1]
          · rw [XyzInternalWriter.dropWriter, hw1]
            simp
  · intro w stream hw hf
    have hfin : w.finish =
        ({ w with inner := none },
          .ok { stream with slots := writeAt stream.slots 1 (FileSlot.header w.header) }) := by
      rw [XyzInternalWriter.finish, hw]
      dsimp only
      rw [if_neg (by rw [hf]; simp)]
    constructor
    · rw [XyzInternalWriter.dropWriter, if_pos (by rw [hw]; simp), hfin]
    · rw [hfin]
  · intro w stream hw hf
    have hfin : w.finish = ({ w with inner := none }, .error "seek or write failed") := by
      rw [XyzInternalWriter.finish, hw]
      dsimp only
      rw [if_pos hf]
    rw [XyzInternalWriter.dropWriter, if_pos (by rw [hw]; simp), hfin]

theorem C8_witness :
    XyzInternalWriter.dropWriter ⟨some ⟨[], true⟩, Header.new⟩ = .panicked :=
  C8_finish_idempotent_drop.2.2 ⟨some ⟨[], true⟩, Header.new⟩ ⟨[], true⟩ rfl rfl

theorem Vec2Dq.get_set_self {α : Type} (g : Vec2Dq α) (x y : Nat) (v : α) :
    (g.set x y v).get x y = v := by
  simp [Vec2Dq.set]

theorem Vec2Dq.get_set_of_ne {α : Type} (g : Vec2Dq α) (x y : Nat) (v : α) (a b : Nat)
    (h : ¬(a = x ∧ b = y)) : (g.set x y v).get a b = g.get a b := by
  simp only [Vec2Dq.set, if_neg h]

theorem Vec2Dq.width_set {α : Type} (g : Vec2Dq α) (x y : Nat) (v : α) :
    (g.set x y v).width = g.width := rfl

theorem Vec2Dq.height_set {α : Type} (g : Vec2Dq α) (x y : Nat) (v : α) :
    (g.set x y v).height = g.height := rfl

theorem foldl_preserve {α β : Type} (P : α → Prop) (f : α → β → α) (l : List β)
    (hstep : ∀ a b, P a → P (f a b)) : ∀ a, P a → P (l.foldl f a) := by
  induction l with
  | nil => intro a h; exact h
  | cons b bs ih =>
      intro a h
      rw [List.foldl_cons]
      exact ih (f a b) (hstep a b h)

theorem set_some_mono (g : Vec2Dq (Option ℚ)) (x y : Nat) (v : ℚ) (a b : Nat)
    (h : (g.get a b).isSome = true) : ((g.set x y (some v)).get a b).isSome = true := by
  by_cases hab : a = x ∧ b = y
  · obtain ⟨rfl, rfl⟩ := hab
    rw [Vec2Dq.get_set_self]
    rfl
  · rw [Vec2Dq.get_set_of_ne g x y _ a b hab]
    exact h

theorem interpStep_mono (w h : Nat) (g : Vec2Dq (Option ℚ)) (x y a b : Nat)
    (hs : (g.get a b).isSome = true) :
    ((interpStep w h g x y).get a b).isSome = true := by
  rw [interpStep]
  cases hxy : g.get x y with
  | some v => exact hs
  | none =>
      dsimp only
      rcases h1 : (match g.get (walkL g y x) y, g.get (walkR g y w x) y with
        | some av, some bv =>
            some ((((walkR g y w x - x : Nat) : ℚ) * av + ((x - walkL g y x : Nat) : ℚ) * bv) /
              ((walkR g y w x - walkL g y x : Nat) : ℚ))
        | _, _ => none : Option ℚ) with _ | v1 <;>
      rcases h2 : (match g.get x (walkD g x y), g.get x (walkU g x h y) with
        | some av, some bv =>
            some ((((walkU g x h y - y : Nat) : ℚ) * av + ((y - walkD g x y : Nat) : ℚ) * bv) /
              ((walkU g x h y - walkD g x y : Nat) : ℚ))
        | _, _ => none : Option ℚ) with _ | v2 <;>
      simp only [h1, h2] <;>
      first
        | exact hs
        | exact set_some_mono g x y _ a b hs

theorem fill3x3Step_mono (w h : Nat) (g : Vec2Dq (Option ℚ)) (x y a b : Nat)
    (hs : (g.get a b).isSome = true) :
    ((fill3x3Step w h g x y).get a b).isSome = true := by
  rw [fill3x3Step]
  cases hxy : g.get x y with
  | some v => exact hs
  | none =>
      dsimp only
      by_cases hc : (neighborOffsets.foldl
          (fun (acc : ℚ × Nat) off =>
            if (y : ℤ) + off.2 ≥ 0 ∧ (x : ℤ) + off.1 ≥ 0 then
              let xIdx := ((x : ℤ) + off.1).toNat
              let yIdx := ((y : ℤ) + off.2).toNat
              if xIdx ≤ w ∧ yIdx ≤ h then
                match g.get xIdx yIdx with
                | some v => (acc.1 + v, acc.2 + 1)
                | none => acc
              else acc
            else acc)
          ((0 : ℚ), (0 : Nat))).2 > 0
      · rw [if_pos hc]
        exact set_some_mono g x y _ a b hs
      · rw [if_neg hc]
        exact hs

theorem carryFrom_mono (g : Vec2Dq (Option ℚ)) (x y ySrc a b : Nat)
    (hs : (g.get a b).isSome = true) :
    ((carryFrom g x y ySrc).get a b).isSome = true := by
  rw [carryFrom]
  cases hxy : g.get x y with
  | some v => exact hs
  | none =>
      dsimp only
      by_cases hab : a = x ∧ b = y
      · obtain ⟨rfl, rfl⟩ := hab
        rw [hxy] at hs
        cases hs
      · rw [Vec2Dq.get_set_of_ne g x y _ a b hab]
        exact hs

theorem crossScan_mono (w h : Nat) (g : Vec2Dq (Option ℚ)) (a b : Nat)
    (hs : (g.get a b).isSome = true) :
    ((crossScan w h g).get a b).isSome = true := by
  rw [crossScan]
  exact foldl_preserve (fun g => (Vec2Dq.get g a b).isSome = true) _ _
    (fun g x hg => foldl_preserve (fun g => (Vec2Dq.get g a b).isSome = true) _ _
      (fun g y hg2 => interpStep_mono w h g x y a b hg2) g hg) g hs

theorem fill3x3_mono (w h : Nat) (g : Vec2Dq (Option ℚ)) (a b : Nat)
    (hs : (g.get a b).isSome = true) :
    ((fill3x3 w h g).get a b).isSome = true := by
  rw [fill3x3]
  exact foldl_preserve (fun g => (Vec2Dq.get g a b).isSome = true) _ _
    (fun g x hg => foldl_preserve (fun g => (Vec2Dq.get g a b).isSome = true) _ _
      (fun g y hg2 => fill3x3Step_mono w h g x y a b hg2) g hg) g hs

theorem columnCarry_mono (w h : Nat) (g : Vec2Dq (Option ℚ)) (a b : Nat)
    (hs : (g.get a b).isSome = true) :
    ((columnCarry w h g).get a b).isSome = true := by
  rw [columnCarry]
  refine foldl_preserve (fun g => (Vec2Dq.get g a b).isSome = true) _ _ ?_ g hs
  intro g x hg
  dsimp only
  refine foldl_preserve (fun g => (Vec2Dq.get g a b).isSome = true) _ _
    (fun g k hg2 => carryFrom_mono g x (h - (k + 1)) (h - k) a b hg2) _ ?_
  exact foldl_preserve (fun g => (Vec2Dq.get g a b).isSome = true) _ _
    (fun g k hg2 => carryFrom_mono g x (k + 1) k a b hg2) g hg

theorem interpStep_dims (w h : Nat) (g : Vec2Dq (Option ℚ)) (x y : Nat) :
    (interpStep w h g x y).width = g.width ∧ (interpStep w h g x y).height = g.height := by
  rw [interpStep]
  cases hxy : g.get x y with
  | some v => exact ⟨rfl, rfl⟩
  | none =>
      dsimp only
      rcases (match g.get (walkL g y x) y, g.get (walkR g y w x) y with
        | some av, some bv =>
            some ((((walkR g y w x - x : Nat) : ℚ) * av + ((x - walkL g y x : Nat) : ℚ) * bv) /
              ((walkR g y w x - walkL g y x : Nat) : ℚ))
        | _, _ => none : Option ℚ) with _ | v1 <;>
      rcases (match g.get x (walkD g x y), g.get x (walkU g x h y) with
        | some av, some bv =>
            some ((((walkU g x h y - y : Nat) : ℚ) * av + ((y - walkD g x y : Nat) : ℚ) * bv) /
              ((walkU g x h y - walkD g x y : Nat) : ℚ))
        | _, _ => none : Option ℚ) with _ | v2 <;>
      exact ⟨rfl, rfl⟩

theorem fill3x3Step_dims (w h : Nat) (g : Vec2Dq (Option ℚ)) (x y : Nat) :
    (fill3x3Step w h g x y).width = g.width ∧ (fill3x3Step w h g x y).height = g.height := by
  rw [fill3x3Step]
  cases hxy : g.get x y with
  | some v => exact ⟨rfl, rfl⟩
  | none =>
      dsimp only
      split
      · exact ⟨rfl, rfl⟩
      · exact ⟨rfl, rfl⟩

theorem carryFrom_dims (g : Vec2Dq (Option ℚ)) (x y ySrc : Nat) :
    (carryFrom g x y ySrc).width = g.width ∧ (carryFrom g x y ySrc).height = g.height := by
  rw [carryFrom]
  cases hxy : g.get x y with
  | some v => exact ⟨rfl, rfl⟩
  | none => exact ⟨rfl, rfl⟩

theorem pipeline_dims (w h : Nat) (g : Vec2Dq (Option ℚ)) :
    (columnCarry w h (fill3x3 w h (crossScan w h g))).width = g.width ∧
      (columnCarry w h (fill3x3 w h (crossScan w h g))).height = g.height := by
  have hP : ∀ g0 : Vec2Dq (Option ℚ),
      (columnCarry w h g0).width = g0.width ∧ (columnCarry w h g0).height = g0.height := by
    intro g0
    rw [columnCarry]
    refine foldl_preserve
      (fun (g : Vec2Dq (Option ℚ)) => g.width = g0.width ∧ g.height = g0.height) _ _ ?_ g0 ⟨rfl, rfl⟩
    intro g x hg
    dsimp only
    refine foldl_preserve (fun (g : Vec2Dq (Option ℚ)) => g.width = g0.width ∧ g.height = g0.height) _ _ ?_ _ ?_
    · intro g k hg2
      exact ⟨(carryFrom_dims g x (h - (k + 1)) (h - k)).1.trans hg2.1,
        (carryFrom_dims g x (h - (k + 1)) (h - k)).2.trans hg2.2⟩
    · refine foldl_preserve (fun (g : Vec2Dq (Option ℚ)) => g.width = g0.width ∧ g.height = g0.height) _ _ ?_ g hg
      intro g k hg2
      exact ⟨(carryFrom_dims g x (k + 1) k).1.trans hg2.1,
        (carryFrom_dims g x (k + 1) k).2.trans hg2.2⟩
  have hF : ∀ g0 : Vec2Dq (Option ℚ),
      (fill3x3 w h g0).width = g0.width ∧ (fill3x3 w h g0).height = g0.height := by
    intro g0
    rw [fill3x3]
    refine foldl_preserve
      (fun (g : Vec2Dq (Option ℚ)) => g.width = g0.width ∧ g.height = g0.height) _ _ ?_ g0 ⟨rfl, rfl⟩
    intro g x hg
    refine foldl_preserve (fun (g : Vec2Dq (Option ℚ)) => g.width = g0.width ∧ g.height = g0.height) _ _ ?_ g hg
    intro g y hg2
    exact ⟨(fill3x3Step_dims w h g x y).1.trans hg2.1,
      (fill3x3Step_dims w h g x y).2.trans hg2.2⟩
  have hC : ∀ g0 : Vec2Dq (Option ℚ),
      (crossScan w h g0).width = g0.width ∧ (crossScan w h g0).height = g0.height := by
    intro g0
    rw [crossScan]
    refine foldl_preserve
      (fun (g : Vec2Dq (Option ℚ)) => g.width = g0.width ∧ g.height = g0.height) _ _ ?_ g0 ⟨rfl, rfl⟩
    intro g x hg
    refine foldl_preserve (fun (g : Vec2Dq (Option ℚ)) => g.width = g0.width ∧ g.height = g0.height) _ _ ?_ g hg
    intro g y hg2
    exact ⟨(interpStep_dims w h g x y).1.trans hg2.1,
      (interpStep_dims w h g x y).2.trans hg2.2⟩
  constructor
  · rw [(hP _).1, (hF _).1, (hC _).1]
  · rw [(hP _).2, (hF _).2, (hC _).2]

theorem accumulateAlt_count_pos (pts : List XyzRecord) (s : ℚ) (wc : Nat) (p : XyzRecord)
    (hp : p ∈ pts) (hg : isGroundOrWater wc p) :
    0 < ((accumulateAlt pts s wc).get (idxX pts s p) (idxY pts s p)).2 := by
  rw [accumulateAlt]
  set step := fun (g : Vec2Dq (ℚ × Nat)) (r : XyzRecord) =>
    if isGroundOrWater wc r then
      let ix := idxX pts s r
      let iy := idxY pts s r
      let sc := Vec2Dq.get g ix iy
      Vec2Dq.set g ix iy (sc.1 + r.z, sc.2 + 1)
    else g with hstep
  have hmono : ∀ (g : Vec2Dq (ℚ × Nat)) (r : XyzRecord),
      0 < (Vec2Dq.get g (idxX pts s p) (idxY pts s p)).2 →
      0 < (Vec2Dq.get (step g r) (idxX pts s p) (idxY pts s p)).2 := by
    intro g r hpos
    rw [hstep]
    dsimp only
    by_cases hr : isGroundOrWater wc r
    · rw [if_pos hr]
      by_cases heq : idxX pts s p = idxX pts s r ∧ idxY pts s p = idxY pts s r
      · rw [← heq.1, ← heq.2, Vec2Dq.get_set_self]
        omega
      · rw [Vec2Dq.get_set_of_ne _ _ _ _ _ _ heq]
        exact hpos
    · rw [if_neg hr]
      exact hpos
  have hhit : ∀ g : Vec2Dq (ℚ × Nat),
      0 < (Vec2Dq.get (step g p) (idxX pts s p) (idxY pts s p)).2 := by
    intro g
    rw [hstep]
    dsimp only
    rw [if_pos hg, Vec2Dq.get_set_self]
    omega
  have main : ∀ (l : List XyzRecord) (g : Vec2Dq (ℚ × Nat)), p ∈ l →
      0 < (Vec2Dq.get (l.foldl step g) (idxX pts s p) (idxY pts s p)).2 := by
    intro l
    induction l with
    | nil => intro g hmem; cases hmem
    | cons r rs ih =>
        intro g hmem
        rw [List.foldl_cons]
        rcases List.mem_cons.mp hmem with hmem | hmem
        · subst hmem
          exact foldl_preserve
            (fun g => 0 < (Vec2Dq.get g (idxX pts s p) (idxY pts s p)).2) step rs
            hmono (step g p) (hhit g)
        · exact ih (step g r) hmem
  exact main pts _ hp

theorem buildAvg_isSome (acc : Vec2Dq (ℚ × Nat)) (w h x y : Nat) (hx : x < w + 1)
    (hy : y < h + 1) (hc : 0 < (acc.get x y).2) :
    ((buildAvg acc w h).get x y).isSome = true := by
  simp only [buildAvg, if_pos (And.intro hx hy)]
  rw [if_pos hc]
  rfl

theorem foldl_min_le_mem (f : XyzRecord → ℚ) (l : List XyzRecord) :
    ∀ (a : ℚ), (∀ x ∈ l, l.foldl (fun m r => if m > f r then f r else m) a ≤ f x) ∧
      l.foldl (fun m r => if m > f r then f r else m) a ≤ a := by
  induction l with
  | nil => intro a; exact ⟨fun x hx => absurd hx (List.not_mem_nil x), le_refl a⟩
  | cons r rs ih =>
      intro a
      rw [List.foldl_cons]
      have hstep : (if a > f r then f r else a) ≤ a ∧ (if a > f r then f r else a) ≤ f r := by
        by_cases h : a > f r
        · rw [if_pos h]; exact ⟨le_of_lt h, le_refl _⟩
        · rw [if_neg h]; exact ⟨le_refl a, le_of_not_lt h⟩
      constructor
      · intro x hx
        rcases List.mem_cons.mp hx with hx | hx
        · subst hx
          exact le_trans (ih _).2 hstep.2
        · exact (ih _).1 x hx
      · exact le_trans (ih _).2 hstep.1

theorem foldl_max_ge_mem (f : XyzRecord → ℚ) (l : List XyzRecord) :
    ∀ (a : ℚ), (∀ x ∈ l, f x ≤ l.foldl (fun m r => if m < f r then f r else m) a) ∧
      a ≤ l.foldl (fun m r => if m < f r then f r else m) a := by
  induction l with
  | nil => intro a; exact ⟨fun x hx => absurd hx (List.not_mem_nil x), le_refl a⟩
  | cons r rs ih =>
      intro a
      rw [List.foldl_cons]
      have hstep : a ≤ (if a < f r then f r else a) ∧ f r ≤ (if a < f r then f r else a) := by
        by_cases h : a < f r
        · rw [if_pos h]; exact ⟨le_of_lt h, le_refl _⟩
        · rw [if_neg h]; exact ⟨le_refl a, le_of_not_lt h⟩
      constructor
      · intro x hx
        rcases List.mem_cons.mp hx with hx | hx
        · subst hx
          exact le_trans hstep.2 (ih _).2
        · exact (ih _).1 x hx
      · exact le_trans hstep.1 (ih _).2

theorem foldMinQ_le (f : XyzRecord → ℚ) (pts : List XyzRecord) (p : XyzRecord) (hp : p ∈ pts) :
    foldMinQ f pts ≤ f p :=
  (foldl_min_le_mem f pts f64Max).1 p hp

theorem le_foldMaxQ (f : XyzRecord → ℚ) (pts : List XyzRecord) (p : XyzRecord) (hp : p ∈ pts) :
    f p ≤ foldMaxQ f pts :=
  (foldl_max_ge_mem f pts f64Min).1 p hp

theorem hmXmin_le (pts : List XyzRecord) (s : ℚ) (hs : 0 < s) :
    hmXmin pts s ≤ foldMinQ (fun r => r.x) pts := by
  rw [hmXmin]
  have h2s : (0 : ℚ) < 2 * s := by linarith
  have hfl : ((⌊foldMinQ (fun r => r.x) pts / 2 / s⌋ : ℤ) : ℚ) ≤
      foldMinQ (fun r => r.x) pts / 2 / s := Int.floor_le _
  have := mul_le_mul_of_nonneg_right hfl h2s.le
  calc ((⌊foldMinQ (fun r => r.x) pts / 2 / s⌋ : ℤ) : ℚ) * 2 * s
      = ((⌊foldMinQ (fun r => r.x) pts / 2 / s⌋ : ℤ) : ℚ) * (2 * s) := by ring
  _ ≤ foldMinQ (fun r => r.x) pts / 2 / s * (2 * s) := this
  _ = foldMinQ (fun r => r.x) pts := by field_simp

theorem hmYmin_le (pts : List XyzRecord) (s : ℚ) (hs : 0 < s) :
    hmYmin pts s ≤ foldMinQ (fun r => r.y) pts := by
  rw [hmYmin]
  have h2s : (0 : ℚ) < 2 * s := by linarith
  have hfl : ((⌊foldMinQ (fun r => r.y) pts / 2 / s⌋ : ℤ) : ℚ) ≤
      foldMinQ (fun r => r.y) pts / 2 / s := Int.floor_le _
  have := mul_le_mul_of_nonneg_right hfl h2s.le
  calc ((⌊foldMinQ (fun r => r.y) pts / 2 / s⌋ : ℤ) : ℚ) * 2 * s
      = ((⌊foldMinQ (fun r => r.y) pts / 2 / s⌋ : ℤ) : ℚ) * (2 * s) := by ring
  _ ≤ foldMinQ (fun r => r.y) pts / 2 / s * (2 * s) := this
  _ = foldMinQ (fun r => r.y) pts := by field_simp

theorem idxX_le_hmW (pts : List XyzRecord) (s : ℚ) (hs : 0 < s) (p : XyzRecord)
    (hp : p ∈ pts) : idxX pts s p ≤ hmW pts s := by
  rw [idxX, hmW, asUsize, asUsize]
  have hfl : (⌊p.x - hmXmin pts s⌋ : ℤ) ≤ ⌊foldMaxQ (fun r => r.x) pts - hmXmin pts s⌋ := by
    apply Int.floor_le_floor
    have := le_foldMaxQ (fun r => r.x) pts p hp
    linarith
  have hint : (⌊p.x - hmXmin pts s⌋ : ℤ) ≤ ⌈foldMaxQ (fun r => r.x) pts - hmXmin pts s⌉ :=
    le_trans hfl (Int.floor_le_ceil _)
  have hq : ((⌊p.x - hmXmin pts s⌋ : ℤ) : ℚ) ≤
      ((⌈foldMaxQ (fun r => r.x) pts - hmXmin pts s⌉ : ℤ) : ℚ) := by exact_mod_cast hint
  have hdiv : ((⌊p.x - hmXmin pts s⌋ : ℤ) : ℚ) / 2 / s ≤
      ((⌈foldMaxQ (fun r => r.x) pts - hmXmin pts s⌉ : ℤ) : ℚ) / 2 / s := by
    apply (div_le_div_iff_of_pos_right hs).mpr
    apply (div_le_div_iff_of_pos_right (by norm_num : (0 : ℚ) < 2)).mpr
    exact hq
  exact Int.toNat_le_toNat (Int.floor_le_floor hdiv)

theorem idxY_le_hmH (pts : List XyzRecord) (s : ℚ) (hs : 0 < s) (p : XyzRecord)
    (hp : p ∈ pts) : idxY pts s p ≤ hmH pts s := by
  rw [idxY, hmH, asUsize, asUsize]
  have hfl : (⌊p.y - hmYmin pts s⌋ : ℤ) ≤ ⌊foldMaxQ (fun r => r.y) pts - hmYmin pts s⌋ := by
    apply Int.floor_le_floor
    have := le_foldMaxQ (fun r => r.y) pts p hp
    linarith
  have hint : (⌊p.y - hmYmin pts s⌋ : ℤ) ≤ ⌈foldMaxQ (fun r => r.y) pts - hmYmin pts s⌉ :=
    le_trans hfl (Int.floor_le_ceil _)
  have hq : ((⌊p.y - hmYmin pts s⌋ : ℤ) : ℚ) ≤
      ((⌈foldMaxQ (fun r => r.y) pts - hmYmin pts s⌉ : ℤ) : ℚ) := by exact_mod_cast hint
  have hdiv : ((⌊p.y - hmYmin pts s⌋ : ℤ) : ℚ) / 2 / s ≤
      ((⌈foldMaxQ (fun r => r.y) pts - hmYmin pts s⌉ : ℤ) : ℚ) / 2 / s := by
    apply (div_le_div_iff_of_pos_right hs).mpr
    apply (div_le_div_iff_of_pos_right (by norm_num : (0 : ℚ) < 2)).mpr
    exact hq
  exact Int.toNat_le_toNat (Int.floor_le_floor hdiv)

theorem foldl_mem_point {G : Type} (step : G → Nat → G) (P P0 : G → Prop) (r : Nat)
    (l : List Nat) (hmem : r ∈ l)
    (hPmono : ∀ g y, P g → P (step g y))
    (hP0mono : ∀ g y, P0 g → P0 (step g y))
    (htrigger : ∀ g, P0 g → P (step g r)) :
    ∀ g, P0 g → P (l.foldl step g) := by
  induction l with
  | nil => cases hmem
  | cons y ys ih =>
      intro g h0
      rw [List.foldl_cons]
      rcases List.mem_cons.mp hmem with hy | hy
      · subst hy
        exact foldl_preserve P step ys hPmono (step g r) (htrigger g h0)
      · exact ih hy (step g y) (hP0mono g y h0)

theorem offsets_count_pos (w h x y : Nat) (g : Vec2Dq (Option ℚ)) (c r : Nat)
    (hguard : ((y : ℤ) + ((r : ℤ) - (y : ℤ)) ≥ 0 ∧ (x : ℤ) + ((c : ℤ) - (x : ℤ)) ≥ 0))
    (hoff : ((c : ℤ) - (x : ℤ), (r : ℤ) - (y : ℤ)) ∈ neighborOffsets)
    (hcw : c ≤ w) (hrh : r ≤ h) (hsome : (g.get c r).isSome = true) :
    0 < (neighborOffsets.foldl
      (fun (acc : ℚ × Nat) off =>
        if (y : ℤ) + off.2 ≥ 0 ∧ (x : ℤ) + off.1 ≥ 0 then
          let xIdx := ((x : ℤ) + off.1).toNat
          let yIdx := ((y : ℤ) + off.2).toNat
          if xIdx ≤ w ∧ yIdx ≤ h then
            match g.get xIdx yIdx with
            | some v => (acc.1 + v, acc.2 + 1)
            | none => acc
          else acc
        else acc)
      ((0 : ℚ), (0 : Nat))).2 := by
  set step := fun (acc : ℚ × Nat) (off : ℤ × ℤ) =>
    if (y : ℤ) + off.2 ≥ 0 ∧ (x : ℤ) + off.1 ≥ 0 then
      let xIdx := ((x : ℤ) + off.1).toNat
      let yIdx := ((y : ℤ) + off.2).toNat
      if xIdx ≤ w ∧ yIdx ≤ h then
        match g.get xIdx yIdx with
        | some v => (acc.1 + v, acc.2 + 1)
        | none => acc
      else acc
    else acc with hstepdef
  have hmono : ∀ (acc : ℚ × Nat) (off : ℤ × ℤ), acc.2 ≤ (step acc off).2 := by
    intro acc off
    rw [hstepdef]
    dsimp only
    by_cases h1 : (y : ℤ) + off.2 ≥ 0 ∧ (x : ℤ) + off.1 ≥ 0
    · rw [if_pos h1]
      by_cases h2 : ((x : ℤ) + off.1).toNat ≤ w ∧ ((y : ℤ) + off.2).toNat ≤ h
      · rw [if_pos h2]
        cases hv : g.get (((x : ℤ) + off.1).toNat) (((y : ℤ) + off.2).toNat) with
        | some v => dsimp only; omega
        | none => dsimp only; omega
      · rw [if_neg h2]
    · rw [if_neg h1]
  have hfold_mono : ∀ (l : List (ℤ × ℤ)) (acc : ℚ × Nat), acc.2 ≤ (l.foldl step acc).2 := by
    intro l
    induction l with
    | nil => intro acc; exact le_refl _
    | cons o os ih =>
        intro acc
        rw [List.foldl_cons]
        exact le_trans (hmono acc o) (ih (step acc o))
  have hbump : ∀ acc : ℚ × Nat,
      acc.2 < (step acc ((c : ℤ) - (x : ℤ), (r : ℤ) - (y : ℤ))).2 := by
    intro acc
    rw [hstepdef]
    dsimp only
    rw [if_pos hguard]
    have hxi : ((x : ℤ) + ((c : ℤ) - (x : ℤ))).toNat = c := by omega
    have hyi : ((y : ℤ) + ((r : ℤ) - (y : ℤ))).toNat = r := by omega
    rw [hxi, hyi, if_pos (And.intro hcw hrh)]
    cases hv : g.get c r with
    | some v => dsimp only; omega
    | none => rw [hv] at hsome; cases hsome
  -- walk down the offsets list to the triggering offset
  have main : ∀ (l : List (ℤ × ℤ)), ((c : ℤ) - (x : ℤ), (r : ℤ) - (y : ℤ)) ∈ l →
      ∀ acc : ℚ × Nat, 0 < (l.foldl step acc).2 := by
    intro l
    induction l with
    | nil => intro hmem; cases hmem
    | cons o os ih =>
        intro hmem acc
        rw [List.foldl_cons]
        rcases List.mem_cons.mp hmem with ho | ho
        · subst ho
          exact lt_of_lt_of_le (lt_of_le_of_lt (Nat.zero_le acc.2) (hbump acc))
            (hfold_mono os _)
        · exact ih ho (step acc o)
  exact main neighborOffsets hoff ((0 : ℚ), (0 : Nat))

theorem fill3x3_col_trigger (w h : Nat) (x c r : Nat) (g : Vec2Dq (Option ℚ))
    (hcx : ((c : ℤ) - (x : ℤ) = -1) ∨ ((c : ℤ) - (x : ℤ) = 0) ∨ ((c : ℤ) - (x : ℤ) = 1))
    (hcw : c ≤ w) (hrh : r ≤ h) (hsome : (g.get c r).isSome = true) :
    ((fill3x3Step w h g x r).get x r).isSome = true := by
  rw [fill3x3Step]
  cases hxy : g.get x r with
  | some v => rw [hxy]; rfl
  | none =>
      dsimp only
      rw [if_pos]
      · rw [Vec2Dq.get_set_self]
        rfl
      · apply offsets_count_pos w h x r g c r
        · constructor
          · omega
          · omega
        · rcases hcx with hcx | hcx | hcx <;>
            { rw [show ((c : ℤ) - (x : ℤ), (r : ℤ) - (r : ℤ)) =
                (((c : ℤ) - (x : ℤ)), (0 : ℤ)) by rw [sub_self], hcx]
              simp [neighborOffsets] }
        · exact hcw
        · exact hrh
        · exact hsome

theorem colFold_mono (w h : Nat) (g : Vec2Dq (Option ℚ)) (x a : Nat)
    (hcol : colNonEmpty g h a) :
    colNonEmpty ((List.range (h + 1)).foldl (fun g y => fill3x3Step w h g x y) g) h a := by
  obtain ⟨r, hr, hsome⟩ := hcol
  exact ⟨r, hr, foldl_preserve (fun g => (Vec2Dq.get g a r).isSome = true) _ _
    (fun g y hg => fill3x3Step_mono w h g x y a r hg) g hsome⟩

theorem fill3x3_col_new (w h : Nat) (g : Vec2Dq (Option ℚ)) (x c : Nat)
    (hcx : ((c : ℤ) - (x : ℤ) = -1) ∨ ((c : ℤ) - (x : ℤ) = 0) ∨ ((c : ℤ) - (x : ℤ) = 1))
    (hcw : c ≤ w) (hcol : colNonEmpty g h c) :
    colNonEmpty ((List.range (h + 1)).foldl (fun g y => fill3x3Step w h g x y) g) h x := by
  obtain ⟨r, hr, hsome⟩ := hcol
  refine ⟨r, hr, ?_⟩
  refine foldl_mem_point (fun g y => fill3x3Step w h g x y)
    (fun g => (Vec2Dq.get g x r).isSome = true)
    (fun g => (Vec2Dq.get g c r).isSome = true) r (List.range (h + 1))
    (List.mem_range.mpr (by omega)) ?_ ?_ ?_ g hsome
  · intro g y hg
    exact fill3x3Step_mono w h g x y x r hg
  · intro g y hg
    exact fill3x3Step_mono w h g x y c r hg
  · intro g hg
    exact fill3x3_col_trigger w h x c r g hcx hcw hr hg

theorem fill3x3_all_cols (w h : Nat) (g0 : Vec2Dq (Option ℚ)) (x0 : Nat) (hx0 : x0 ≤ 1)
    (hx0w : x0 ≤ w) (hcol : colNonEmpty g0 h x0) :
    ∀ c, c ≤ w → colNonEmpty (fill3x3 w h g0) h c := by
  have main : ∀ n, n ≤ w + 1 →
      (∀ c, c < n →
        colNonEmpty ((List.range n).foldl
          (fun g x => (List.range (h + 1)).foldl (fun g y => fill3x3Step w h g x y) g) g0) h c) ∧
      colNonEmpty ((List.range n).foldl
        (fun g x => (List.range (h + 1)).foldl (fun g y => fill3x3Step w h g x y) g) g0) h x0 := by
    intro n
    induction n with
    | zero => intro _; exact ⟨fun c hc => absurd hc (Nat.not_lt_zero c), hcol⟩
    | succ n ih =>
        intro hn
        obtain ⟨hall, hx0col⟩ := ih (by omega)
        rw [show List.range (n + 1) = List.range n ++ [n] from List.range_succ n,
          List.foldl_append, List.foldl_cons, List.foldl_nil]
        set gn := (List.range n).foldl
          (fun g x => (List.range (h + 1)).foldl (fun g y => fill3x3Step w h g x y) g) g0
          with hgn
        constructor
        · intro c hc
          rcases Nat.lt_or_ge c n with hcn | hcn
          · exact colFold_mono w h gn n c (hall c hcn)
          · have hceq : c = n := by omega
            subst hceq
            rcases Nat.lt_trichotomy c x0 with hlt | heq | hgt
            · -- c < x0 ≤ 1 forces c = 0, x0 = 1
              have hc0 : c = 0 := by omega
              have hx01 : x0 = 1 := by omega
              subst hc0
              apply fill3x3_col_new w h gn 0 x0
              · right; right; omega
              · exact hx0w
              · exact hx0col
            · subst heq
              exact colFold_mono w h gn c c hx0col
            · apply fill3x3_col_new w h gn c (c - 1)
              · left; omega
              · omega
              · exact hall (c - 1) (by omega)
        · exact colFold_mono w h gn n x0 hx0col
  intro c hc
  have := (main (w + 1) (le_refl _)).1 c (by omega)
  rw [fill3x3]
  exact this

theorem carryFrom_fills (g : Vec2Dq (Option ℚ)) (x y ySrc : Nat)
    (hd : (g.get x y).isSome = true ∨ (g.get x ySrc).isSome = true) :
    ((carryFrom g x y ySrc).get x y).isSome = true := by
  rw [carryFrom]
  cases hxy : g.get x y with
  | some v => rw [hxy]; rfl
  | none =>
      dsimp only
      rw [Vec2Dq.get_set_self]
      rcases hd with hd | hd
      · rw [hxy] at hd; cases hd
      · exact hd

theorem down_fill (x r : Nat) (g : Vec2Dq (Option ℚ)) (hsome : (g.get x r).isSome = true) :
    ∀ m, ∀ y, r ≤ y → y ≤ m →
      (((List.range m).foldl (fun g k => carryFrom g x (k + 1) k) g).get x y).isSome = true := by
  intro m
  induction m with
  | zero =>
      intro y hry hy0
      have : y = 0 := by omega
      subst this
      have : r = 0 := by omega
      subst this
      simpa using hsome
  | succ m ih =>
      intro y hry hym
      rw [show List.range (m + 1) = List.range m ++ [m] from List.range_succ m,
        List.foldl_append, List.foldl_cons, List.foldl_nil]
      set gm := (List.range m).foldl (fun g k => carryFrom g x (k + 1) k) g with hgm
      rcases Nat.lt_or_ge y (m + 1) with hy | hy
      · -- y ≤ m: monotone through the one extra step
        exact carryFrom_mono gm x (m + 1) m x y (ih y hry (by omega))
      · have hyeq : y = m + 1 := by omega
        subst hyeq
        apply carryFrom_fills
        rcases Nat.lt_or_ge m r with hmr | hmr
        · -- r = m + 1: the original row is already filled, monotonically
          have hreq : r = m + 1 := by omega
          subst hreq
          left
          exact foldl_preserve (fun g => (Vec2Dq.get g x (m + 1)).isSome = true) _ _
            (fun g k hg => carryFrom_mono g x (k + 1) k x (m + 1) hg) g hsome
        · right
          exact ih m hmr (le_refl m)

theorem up_fill (h x : Nat) (g : Vec2Dq (Option ℚ)) (htop : (g.get x h).isSome = true) :
    ∀ m, ∀ y, h - m ≤ y → y ≤ h →
      (((List.range m).foldl (fun g k => carryFrom g x (h - (k + 1)) (h - k)) g).get x y).isSome
        = true := by
  intro m
  induction m with
  | zero =>
      intro y hy1 hy2
      have : y = h := by omega
      subst this
      simpa using htop
  | succ m ih =>
      intro y hy1 hy2
      rw [show List.range (m + 1) = List.range m ++ [m] from List.range_succ m,
        List.foldl_append, List.foldl_cons, List.foldl_nil]
      set gm := (List.range m).foldl (fun g k => carryFrom g x (h - (k + 1)) (h - k)) g with hgm
      rcases Nat.lt_or_ge y (h - m) with hy | hy
      · have hyeq : y = h - (m + 1) := by omega
        subst hyeq
        apply carryFrom_fills
        right
        exact ih (h - m) (le_refl _) (by omega)
      · exact carryFrom_mono gm x (h - (m + 1)) (h - m) x y (ih y hy hy2)

theorem carry_col_fills (h x : Nat) (g : Vec2Dq (Option ℚ)) (hcol : colNonEmpty g h x) :
    ∀ y, y ≤ h →
      (((List.range h).foldl (fun g k => carryFrom g x (h - (k + 1)) (h - k))
        ((List.range h).foldl (fun g k => carryFrom g x (k + 1) k) g)).get x y).isSome = true := by
  obtain ⟨r, hrh, hsome⟩ := hcol
  have hdown := down_fill x r g hsome h
  intro y hy
  exact up_fill h x ((List.range h).foldl (fun g k => carryFrom g x (k + 1) k) g)
    (hdown h hrh (le_refl h)) h y (by omega) hy

theorem colStep_mono (h : Nat) (x a b : Nat) (g : Vec2Dq (Option ℚ))
    (hs : (g.get a b).isSome = true) :
    (((List.range h).foldl (fun g k => carryFrom g x (h - (k + 1)) (h - k))
      ((List.range h).foldl (fun g k => carryFrom g x (k + 1) k) g)).get a b).isSome = true := by
  refine foldl_preserve (fun g => (Vec2Dq.get g a b).isSome = true) _ _
    (fun g k hg => carryFrom_mono g x (h - (k + 1)) (h - k) a b hg) _ ?_
  exact foldl_preserve (fun g => (Vec2Dq.get g a b).isSome = true) _ _
    (fun g k hg => carryFrom_mono g x (k + 1) k a b hg) g hs

theorem columnCarry_fills (w h : Nat) (g : Vec2Dq (Option ℚ))
    (hcols : ∀ c, c ≤ w → colNonEmpty g h c) :
    ∀ c, c ≤ w → ∀ y, y ≤ h → ((columnCarry w h g).get c y).isSome = true := by
  have main : ∀ n, n ≤ w + 1 →
      (∀ c, c < n → ∀ y, y ≤ h →
        ((((List.range n).foldl (fun g x =>
          (List.range h).foldl (fun g k => carryFrom g x (h - (k + 1)) (h - k))
            ((List.range h).foldl (fun g k => carryFrom g x (k + 1) k) g)) g)).get c y).isSome
          = true) ∧
      (∀ c, c ≤ w → colNonEmpty (((List.range n).foldl (fun g x =>
        (List.range h).foldl (fun g k => carryFrom g x (h - (k + 1)) (h - k))
          ((List.range h).foldl (fun g k => carryFrom g x (k + 1) k) g)) g)) h c) := by
    intro n
    induction n with
    | zero =>
        intro _
        exact ⟨fun c hc => absurd hc (Nat.not_lt_zero c), hcols⟩
    | succ n ih =>
        intro hn
        obtain ⟨hfull, hcols2⟩ := ih (by omega)
        rw [show List.range (n + 1) = List.range n ++ [n] from List.range_succ n,
          List.foldl_append, List.foldl_cons, List.foldl_nil]
        set gn := (List.range n).foldl (fun g x =>
          (List.range h).foldl (fun g k => carryFrom g x (h - (k + 1)) (h - k))
            ((List.range h).foldl (fun g k => carryFrom g x (k + 1) k) g)) g with hgn
        constructor
        · intro c hc y hy
          rcases Nat.lt_or_ge c n with hcn | hcn
          · exact colStep_mono h n c y gn (hfull c hcn y hy)
          · have hceq : c = n := by omega
            subst hceq
            exact carry_col_fills h c gn (hcols2 c (by omega)) y hy
        · intro c hc
          obtain ⟨r, hrh, hsome⟩ := hcols2 c hc
          exact ⟨r, hrh, colStep_mono h n c r gn hsome⟩
  intro c hc y hy
  rw [columnCarry]
  exact (main (w + 1) (le_refl _)).1 c (by omega) y hy

/-- C1 (amended): for every point-cloud input that contains at least one
ground/water point falling in one of the two leftmost grid columns (as is
the case whenever the minimum-x point is classified ground or water), and
a positive scalefactor, `xyz2heightmap` succeeds: the no-NaN assertion
does not fire, every cell of the returned HeightMap is non-NaN, and
`maxx = xoffset + scale · width`. -/
theorem C1_heightmap_amended (pts : List XyzRecord) (s : ℚ) (wc : Nat) (hs : 0 < s)
    (p : XyzRecord) (hp : p ∈ pts) (hg : isGroundOrWater wc p)
    (hcol : idxX pts s p ≤ 1) :
    ∃ hm, xyz2heightmap pts s wc = some hm ∧
      (∀ x, x < hm.grid.width → ∀ y, y < hm.grid.height → (hm.grid.get x y).isSome = true) ∧
      hm.maxx = hm.xoffset + hm.scale * (hm.grid.width : ℚ) ∧
      hm.grid.width = hmW pts s + 1 ∧ hm.grid.height = hmH pts s + 1 := by
  set w := hmW pts s with hw
  set h := hmH pts s with hh
  set g0 := buildAvg (accumulateAlt pts s wc) w h with hg0
  set g3 := columnCarry w h (fill3x3 w h (crossScan w h g0)) with hg3
  have hx0w : idxX pts s p ≤ w := idxX_le_hmW pts s hs p hp
  have hyh : idxY pts s p ≤ h := idxY_le_hmH pts s hs p hp
  have hcell : (g0.get (idxX pts s p) (idxY pts s p)).isSome = true := by
    rw [hg0]
    exact buildAvg_isSome (accumulateAlt pts s wc) w h _ _ (by omega) (by omega)
      (accumulateAlt_count_pos pts s wc p hp hg)
  have hcol0 : colNonEmpty g0 h (idxX pts s p) := ⟨idxY pts s p, hyh, hcell⟩
  have hcol1 : colNonEmpty (crossScan w h g0) h (idxX pts s p) := by
    obtain ⟨r, hrh, hsome⟩ := hcol0
    exact ⟨r, hrh, crossScan_mono w h g0 _ r hsome⟩
  have hallcols : ∀ c, c ≤ w → colNonEmpty (fill3x3 w h (crossScan w h g0)) h c :=
    fill3x3_all_cols w h (crossScan w h g0) (idxX pts s p) hcol hx0w hcol1
  have hfull : ∀ c, c ≤ w → ∀ y, y ≤ h → (g3.get c y).isSome = true := by
    rw [hg3]
    exact columnCarry_fills w h (fill3x3 w h (crossScan w h g0)) hallcols
  have hdims : g3.width = w + 1 ∧ g3.height = h + 1 := by
    rw [hg3]
    have := pipeline_dims w h g0
    rw [this.1, this.2, hg0]
    exact ⟨rfl, rfl⟩
  have hcond : ((List.range g3.width).all
      (fun x => (List.range g3.height).all fun y => (g3.get x y).isSome)) = true := by
    rw [List.all_eq_true]
    intro x hx
    rw [List.all_eq_true]
    intro y hy
    rw [hdims.1, List.mem_range] at hx
    rw [hdims.2, List.mem_range] at hy
    exact hfull x (by omega) y (by omega)
  refine ⟨⟨hmXmin pts s + 1, hmYmin pts s + 1, 2 * s, g3⟩, ?_, ?_, rfl, hdims.1, hdims.2⟩
  · rw [xyz2heightmap, ← hw, ← hh, ← hg0, ← hg3, if_pos hcond]
  · intro x hx y hy
    dsimp only at hx hy ⊢
    rw [hdims.1] at hx
    rw [hdims.2] at hy
    exact hfull x (by omega) y (by omega)

theorem C1_cex_min_x :
    foldMinQ (fun r => r.x) [⟨0, 0, 1, 5, 0, 0⟩, ⟨40, 0, 5, 2, 0, 0⟩] = 0 := by
  norm_num [foldMinQ, f64Max]

theorem C1_cex_max_x :
    foldMaxQ (fun r => r.x) [⟨0, 0, 1, 5, 0, 0⟩, ⟨40, 0, 5, 2, 0, 0⟩] = 40 := by
  norm_num [foldMaxQ, f64Min, f64Max]

theorem C1_cex_min_y :
    foldMinQ (fun r => r.y) [⟨0, 0, 1, 5, 0, 0⟩, ⟨40, 0, 5, 2, 0, 0⟩] = 0 := by
  norm_num [foldMinQ, f64Max]

theorem C1_cex_max_y :
    foldMaxQ (fun r => r.y) [⟨0, 0, 1, 5, 0, 0⟩, ⟨40, 0, 5, 2, 0, 0⟩] = 0 := by
  norm_num [foldMaxQ, f64Min, f64Max]

theorem C1_cex_xmin : hmXmin [⟨0, 0, 1, 5, 0, 0⟩, ⟨40, 0, 5, 2, 0, 0⟩] 5 = 0 := by
  rw [hmXmin, C1_cex_min_x]
  norm_num

theorem C1_cex_ymin : hmYmin [⟨0, 0, 1, 5, 0, 0⟩, ⟨40, 0, 5, 2, 0, 0⟩] 5 = 0 := by
  rw [hmYmin, C1_cex_min_y]
  norm_num

theorem C1_cex_w : hmW [⟨0, 0, 1, 5, 0, 0⟩, ⟨40, 0, 5, 2, 0, 0⟩] 5 = 4 := by
  rw [hmW, C1_cex_max_x, C1_cex_xmin, asUsize]
  norm_num
  rfl

theorem C1_cex_h : hmH [⟨0, 0, 1, 5, 0, 0⟩, ⟨40, 0, 5, 2, 0, 0⟩] 5 = 0 := by
  rw [hmH, C1_cex_max_y, C1_cex_ymin, asUsize]
  norm_num

theorem C1_cex_idx2 :
    idxX [⟨0, 0, 1, 5, 0, 0⟩, ⟨40, 0, 5, 2, 0, 0⟩] 5 ⟨40, 0, 5, 2, 0, 0⟩ = 4 ∧
      idxY [⟨0, 0, 1, 5, 0, 0⟩, ⟨40, 0, 5, 2, 0, 0⟩] 5 ⟨40, 0, 5, 2, 0, 0⟩ = 0 := by
  constructor
  · rw [idxX, C1_cex_xmin, asUsize]
    norm_num
    rfl
  · rw [idxY, C1_cex_ymin, asUsize]
    norm_num

theorem C1_cex_acc :
    accumulateAlt [⟨0, 0, 1, 5, 0, 0⟩, ⟨40, 0, 5, 2, 0, 0⟩] 5 9 =
      Vec2Dq.set (Vec2Dq.new (ℚ × Nat) 6 2 (0, 0)) 4 0 ((0 : ℚ) + 5, 0 + 1) := by
  rw [accumulateAlt, C1_cex_w, C1_cex_h]
  rw [List.foldl_cons, List.foldl_cons, List.foldl_nil]
  rw [if_pos (by norm_num [isGroundOrWater])]
  rw [C1_cex_idx2.1, C1_cex_idx2.2]
  rw [if_neg (by norm_num [isGroundOrWater])]
  rfl

theorem Vec2Dq.ext_grid {α : Type} (g1 g2 : Vec2Dq α) (hw : g1.width = g2.width)
    (hh : g1.height = g2.height) (hg : ∀ x y, g1.get x y = g2.get x y) : g1 = g2 := by
  cases g1 with
  | mk w1 h1 f1 =>
      cases g2 with
      | mk w2 h2 f2 =>
          simp only [Vec2Dq.mk.injEq]
          exact ⟨hw, hh, funext fun x => funext fun y => hg x y⟩

theorem C1_cex_g0 :
    buildAvg (accumulateAlt [⟨0, 0, 1, 5, 0, 0⟩, ⟨40, 0, 5, 2, 0, 0⟩] 5 9) 4 0 =
      (⟨5, 1, fun x y => if x = 4 ∧ y = 0 then some 5 else none⟩ : Vec2Dq (Option ℚ)) := by
  rw [C1_cex_acc]
  refine Vec2Dq.ext_grid _ _ rfl rfl ?_
  intro x y
  by_cases hxy : x = 4 ∧ y = 0
  · obtain ⟨rfl, rfl⟩ := hxy
    norm_num [buildAvg, Vec2Dq.set, Vec2Dq.new]
  · simp only [buildAvg, if_neg hxy]
    by_cases hin : x < 4 + 1 ∧ y < 0 + 1
    · rw [if_pos hin]
      rw [Vec2Dq.get_set_of_ne _ _ _ _ _ _ hxy]
      rfl
    · rw [if_neg hin]

theorem walkL_le (g : Vec2Dq (Option ℚ)) (y : Nat) : ∀ i, walkL g y i ≤ i := by
  intro i
  induction i with
  | zero => rw [walkL]
  | succ i ih =>
      rw [walkL]
      by_cases h : (g.get (i + 1) y).isNone
      · rw [if_pos h]; omega
      · rw [if_neg h]

theorem C1_cex_istep (x : Nat) (hx : x ≤ 3) :
    interpStep 4 0 (⟨5, 1, fun x y => if x = 4 ∧ y = 0 then some 5 else none⟩ :
        Vec2Dq (Option ℚ)) x 0 =
      (⟨5, 1, fun x y => if x = 4 ∧ y = 0 then some 5 else none⟩ : Vec2Dq (Option ℚ)) := by
  set G0 : Vec2Dq (Option ℚ) :=
    ⟨5, 1, fun x y => if x = 4 ∧ y = 0 then some 5 else none⟩ with hG0
  have hget : ∀ a b, a ≤ 3 → G0.get a b = none := by
    intro a b ha
    rw [hG0]
    exact if_neg (by omega)
  have hgetx : G0.get x 0 = none := hget x 0 hx
  have hwle := walkL_le G0 0 x
  rw [interpStep, hgetx]
  dsimp only
  rw [if_neg (show ¬(walkL G0 0 x = 4 ∧ 0 = 0) from by omega),
    if_neg (show ¬(x = 4 ∧ walkD G0 x 0 = 0) from by omega),
    if_neg (show ¬(x = 4 ∧ walkU G0 x 0 0 = 0) from by omega)]

theorem C1_cex_istep4 :
    interpStep 4 0 (⟨5, 1, fun x y => if x = 4 ∧ y = 0 then some 5 else none⟩ :
        Vec2Dq (Option ℚ)) 4 0 =
      (⟨5, 1, fun x y => if x = 4 ∧ y = 0 then some 5 else none⟩ : Vec2Dq (Option ℚ)) := by
  rfl

theorem C1_cex_cross :
    crossScan 4 0 (⟨5, 1, fun x y => if x = 4 ∧ y = 0 then some 5 else none⟩ :
        Vec2Dq (Option ℚ)) =
      (⟨5, 1, fun x y => if x = 4 ∧ y = 0 then some 5 else none⟩ : Vec2Dq (Option ℚ)) := by
  rw [crossScan]
  rw [show List.range (4 + 1) = [0, 1, 2, 3, 4] from rfl,
    show List.range (0 + 1) = [0] from rfl]
  simp only [List.foldl_cons, List.foldl_nil]
  rw [C1_cex_istep 0 (by omega), C1_cex_istep 1 (by omega), C1_cex_istep 2 (by omega),
    C1_cex_istep 3 (by omega), C1_cex_istep4]

theorem C1_cex_fill :
    fill3x3 4 0 (⟨5, 1, fun x y => if x = 4 ∧ y = 0 then some 5 else none⟩ :
        Vec2Dq (Option ℚ)) =
      Vec2Dq.set (⟨5, 1, fun x y => if x = 4 ∧ y = 0 then some 5 else none⟩ :
        Vec2Dq (Option ℚ)) 3 0 (some (((0 : ℚ) + 5) / (((0 + 1 : Nat)) : ℚ))) := by
  rw [fill3x3]
  rw [show List.range (4 + 1) = [0, 1, 2, 3, 4] from rfl,
    show List.range (0 + 1) = [0] from rfl]
  simp only [List.foldl_cons, List.foldl_nil]
  rw [show fill3x3Step 4 0 (⟨5, 1, fun x y => if x = 4 ∧ y = 0 then some 5 else none⟩ :
    Vec2Dq (Option ℚ)) 0 0 = (⟨5, 1, fun x y => if x = 4 ∧ y = 0 then some 5 else none⟩ :
    Vec2Dq (Option ℚ)) from rfl]
  rw [show fill3x3Step 4 0 (⟨5, 1, fun x y => if x = 4 ∧ y = 0 then some 5 else none⟩ :
    Vec2Dq (Option ℚ)) 1 0 = (⟨5, 1, fun x y => if x = 4 ∧ y = 0 then some 5 else none⟩ :
    Vec2Dq (Option ℚ)) from rfl]
  rw [show fill3x3Step 4 0 (⟨5, 1, fun x y => if x = 4 ∧ y = 0 then some 5 else none⟩ :
    Vec2Dq (Option ℚ)) 2 0 = (⟨5, 1, fun x y => if x = 4 ∧ y = 0 then some 5 else none⟩ :
    Vec2Dq (Option ℚ)) from rfl]
  rfl

theorem C1_cex_carry :
    columnCarry 4 0 (Vec2Dq.set (⟨5, 1, fun x y => if x = 4 ∧ y = 0 then some 5 else none⟩ :
        Vec2Dq (Option ℚ)) 3 0 (some (((0 : ℚ) + 5) / (((0 + 1 : Nat)) : ℚ)))) =
      Vec2Dq.set (⟨5, 1, fun x y => if x = 4 ∧ y = 0 then some 5 else none⟩ :
        Vec2Dq (Option ℚ)) 3 0 (some (((0 : ℚ) + 5) / (((0 + 1 : Nat)) : ℚ))) := by
  rw [columnCarry]
  simp only [List.range_zero, List.foldl_nil]
  have hid : ∀ (l : List Nat) (g : Vec2Dq (Option ℚ)), l.foldl (fun g _ => g) g = g := by
    intro l
    induction l with
    | nil => intro g; rfl
    | cons a as ih => intro g; rw [List.foldl_cons]; exact ih g
  exact hid _ _

/-- C1, counterexample: the input has a ground point, but the grid bounds
come from *all* points, and a non-ground point at x = 0 stretches the grid
to columns 0..4 while the only ground point occupies column 4.  The fill
passes cannot reach columns 0..2 (the cross-scan needs valid cells on both
sides, the 3×3 pass sweeps ascending in x and so never propagates left by
more than one column, and the final pass only copies within a column), so
NaNs survive and the assertion fires (modelled as `none`). -/
theorem C1_heightmap_cex :
    (∃ r ∈ ([⟨0, 0, 1, 5, 0, 0⟩, ⟨40, 0, 5, 2, 0, 0⟩] : List XyzRecord),
        isGroundOrWater 9 r) ∧
      xyz2heightmap [⟨0, 0, 1, 5, 0, 0⟩, ⟨40, 0, 5, 2, 0, 0⟩] 5 9 = none := by
  constructor
  · exact ⟨⟨40, 0, 5, 2, 0, 0⟩, by simp, Or.inl rfl⟩
  · rw [xyz2heightmap]
    rw [C1_cex_w, C1_cex_h, C1_cex_g0, C1_cex_cross, C1_cex_fill, C1_cex_carry]
    rw [if_neg]
    intro hall
    rw [List.all_eq_true] at hall
    have h0 := hall 0 (by rw [Vec2Dq.width_set]; simp)
    rw [List.all_eq_true] at h0
    have h00 := h0 0 (by rw [Vec2Dq.height_set]; simp)
    rw [Vec2Dq.get_set_of_ne _ _ _ _ _ _ (by omega)] at h00
    simp at h00

theorem C1_heightmap_amended_witness :
    (xyz2heightmap [⟨0, 0, 1, 2, 0, 0⟩, ⟨40, 0, 5, 2, 0, 0⟩] 5 9).isSome = true := by
  have hxmin : hmXmin [⟨0, 0, 1, 2, 0, 0⟩, ⟨40, 0, 5, 2, 0, 0⟩] 5 = 0 := by
    rw [hmXmin]
    norm_num [foldMinQ, f64Max]
  have hcol : idxX [⟨0, 0, 1, 2, 0, 0⟩, ⟨40, 0, 5, 2, 0, 0⟩] 5 ⟨0, 0, 1, 2, 0, 0⟩ ≤ 1 := by
    rw [idxX, asUsize, hxmin]
    norm_num
  obtain ⟨hm, heq, -⟩ := C1_heightmap_amended [⟨0, 0, 1, 2, 0, 0⟩, ⟨40, 0, 5, 2, 0, 0⟩] 5 9
    (by norm_num) ⟨0, 0, 1, 2, 0, 0⟩ (by simp) (Or.inl rfl) hcol
  rw [heq]
  rfl
